import Mathlib

/-!
Verification of the surebet-dashboard-api repository.

This file shallowly embeds the data model and operations of the repository
(`index.js`, `sheets.js`, `db.js`) and proves properties about them.

Modelling conventions:
* JavaScript numbers are modelled by `JSNum`: exact rationals plus the special
  values `NaN`, `Infinity`, `-Infinity`.  IEEE-754 rounding is out of scope;
  arithmetic on finite values is exact rational arithmetic.
* JavaScript values flowing into the cell parsers are modelled by `JSVal`
  (string, number, null, undefined).
* Row objects produced by the row extractor map column names to either a
  string cell or `undefined`; they are modelled as `String → Option String`.
* JavaScript string operations (`trim`, `toUpperCase`, `toLowerCase`,
  Unicode NFD + combining-mark stripping) are modelled on `List Char`, with
  the accent tables covering the Latin repertoire relevant to the
  Portuguese-language spreadsheets the service reads.
* The two kinds of maps the aggregator uses are modelled separately: the
  `Map`-based entry grouping is a presence-test association list
  (`jsGroup`), while the plain-`{}` breakdown maps read through the
  prototype chain (`jsObjGroup`, `dayStep`): a key colliding with an
  inherited `Object.prototype` property finds a truthy value and skips the
  init, and the day accumulator tests FALSINESS of the stored number, so a
  `0` or `NaN` accumulator is re-initialized to `0` before adding.
-/

/-- A JavaScript number: NaN, +Infinity, -Infinity, or a finite value
(modelled as an exact rational). -/
inductive JSNum where
  | nan : JSNum
  | inf : JSNum
  | ninf : JSNum
  | fin (q : ℚ) : JSNum
deriving DecidableEq

/-- A JavaScript value as far as the cell parsers are concerned. -/
inductive JSVal where
  | vstr (s : String) : JSVal
  | vnum (n : JSNum) : JSVal
  | vnull : JSVal
  | vundef : JSVal
deriving DecidableEq

namespace JSNum

/-- JavaScript addition on numbers (exact on finite values). -/
def jadd : JSNum → JSNum → JSNum
  | nan, _ => nan
  | _, nan => nan
  | inf, ninf => nan
  | ninf, inf => nan
  | inf, _ => inf
  | _, inf => inf
  | ninf, _ => ninf
  | _, ninf => ninf
  | fin a, fin b => fin (a + b)

/-- JavaScript multiplication on numbers (exact on finite values). -/
def jmul : JSNum → JSNum → JSNum
  | nan, _ => nan
  | _, nan => nan
  | inf, inf => inf
  | inf, ninf => ninf
  | ninf, inf => ninf
  | ninf, ninf => inf
  | inf, fin b => if b > 0 then inf else if b < 0 then ninf else nan
  | fin a, inf => if a > 0 then inf else if a < 0 then ninf else nan
  | ninf, fin b => if b > 0 then ninf else if b < 0 then inf else nan
  | fin a, ninf => if a > 0 then ninf else if a < 0 then inf else nan
  | fin a, fin b => fin (a * b)

/-- JavaScript division on numbers (exact on finite values; division by the
single modelled zero behaves like division by +0). -/
def jdiv : JSNum → JSNum → JSNum
  | nan, _ => nan
  | _, nan => nan
  | inf, inf => nan
  | inf, ninf => nan
  | ninf, inf => nan
  | ninf, ninf => nan
  | inf, fin b => if b < 0 then ninf else inf
  | ninf, fin b => if b < 0 then inf else ninf
  | fin _, inf => fin 0
  | fin _, ninf => fin 0
  | fin a, fin b =>
    if b = 0 then (if a = 0 then nan else if a > 0 then inf else ninf)
    else fin (a / b)

/-- JavaScript `<` on numbers: any comparison involving NaN is false. -/
def jlt : JSNum → JSNum → Bool
  | nan, _ => false
  | _, nan => false
  | ninf, ninf => false
  | ninf, _ => true
  | _, ninf => false
  | inf, _ => false
  | fin _, inf => true
  | fin a, fin b => decide (a < b)

end JSNum

open JSNum

/-- Sum of a list of JavaScript numbers, as `reduce((s, x) => s + x, 0)` does. -/
def jsum (l : List JSNum) : JSNum := l.foldl jadd (fin 0)

instance : Add JSNum := ⟨jadd⟩

instance : Zero JSNum := ⟨JSNum.fin 0⟩

/-- `jadd` is a commutative monoid operation with identity `fin 0` (the NaN
and infinity cases are absorbing/idempotent in a way compatible with this). -/
instance : AddCommMonoid JSNum where
  add_assoc a b c := by
    show jadd (jadd a b) c = jadd a (jadd b c)
    cases a <;> cases b <;> cases c <;> simp [jadd] <;> ring
  zero_add a := by show jadd (JSNum.fin 0) a = a; cases a <;> simp [jadd]
  add_zero a := by show jadd a (JSNum.fin 0) = a; cases a <;> simp [jadd]
  add_comm a b := by
    show jadd a b = jadd b a
    cases a <;> cases b <;> simp [jadd] <;> ring
  nsmul := nsmulRec

/-- The set of whitespace characters recognised by JavaScript `\s`, `trim`
(restricted to the code points that can realistically occur in the data). -/
def jsSpaceChars : List Char :=
  [' ', '\t', '\n', '\r', '\x0b', '\x0c', ' ', ' ', ' ', '﻿']

/-- Whether a character is JavaScript whitespace. -/
def isJsSpace (c : Char) : Bool := jsSpaceChars.contains c

/-- Remove leading JavaScript whitespace. -/
def trimLeftJs (l : List Char) : List Char := l.dropWhile isJsSpace

/-- Remove leading and trailing JavaScript whitespace, as `String.prototype.trim`. -/
def jsTrimL (l : List Char) : List Char :=
  ((trimLeftJs l).reverse.dropWhile isJsSpace).reverse

/-- `String.prototype.trim` on strings. -/
def jsTrimStr (s : String) : String := ⟨jsTrimL s.data⟩

/-- Uppercase an ASCII letter, as the ASCII fragment of `toUpperCase`. -/
def upperAscii (c : Char) : Char :=
  if 'a' ≤ c ∧ c ≤ 'z' then Char.ofNat (c.toNat - 32) else c

/-- Lowercase an ASCII letter, as the ASCII fragment of `toLowerCase`. -/
def lowerAscii (c : Char) : Char :=
  if 'A' ≤ c ∧ c ≤ 'Z' then Char.ofNat (c.toNat + 32) else c

/-- `String.prototype.toUpperCase`, for the Latin repertoire used by the
spreadsheets (ASCII plus precomposed accented Latin letters). -/
def jsUpperChar (c : Char) : Char :=
  match c with
  | 'á' => 'Á' | 'à' => 'À' | 'â' => 'Â' | 'ã' => 'Ã' | 'ä' => 'Ä'
  | 'é' => 'É' | 'è' => 'È' | 'ê' => 'Ê' | 'ë' => 'Ë'
  | 'í' => 'Í' | 'ì' => 'Ì' | 'î' => 'Î' | 'ï' => 'Ï'
  | 'ó' => 'Ó' | 'ò' => 'Ò' | 'ô' => 'Ô' | 'õ' => 'Õ' | 'ö' => 'Ö'
  | 'ú' => 'Ú' | 'ù' => 'Ù' | 'û' => 'Û' | 'ü' => 'Ü'
  | 'ç' => 'Ç' | 'ñ' => 'Ñ'
  | _ => upperAscii c

/-- `String.prototype.toLowerCase`, for the same Latin repertoire. -/
def jsLowerChar (c : Char) : Char :=
  match c with
  | 'Á' => 'á' | 'À' => 'à' | 'Â' => 'â' | 'Ã' => 'ã' | 'Ä' => 'ä'
  | 'É' => 'é' | 'È' => 'è' | 'Ê' => 'ê' | 'Ë' => 'ë'
  | 'Í' => 'í' | 'Ì' => 'ì' | 'Î' => 'î' | 'Ï' => 'ï'
  | 'Ó' => 'ó' | 'Ò' => 'ò' | 'Ô' => 'ô' | 'Õ' => 'õ' | 'Ö' => 'ö'
  | 'Ú' => 'ú' | 'Ù' => 'ù' | 'Û' => 'û' | 'Ü' => 'ü'
  | 'Ç' => 'ç' | 'Ñ' => 'ñ'
  | _ => lowerAscii c

/-- `toLowerCase` on strings. -/
def jsLowerStr (s : String) : String := ⟨s.data.map jsLowerChar⟩

/-- Replace a precomposed accented Latin capital by its base letter.  This is
the observable effect of `normalize("NFD")` followed by stripping the
combining marks U+0300..U+036F on such characters. -/
def deaccent (c : Char) : Char :=
  match c with
  | 'Á' => 'A' | 'À' => 'A' | 'Â' => 'A' | 'Ã' => 'A' | 'Ä' => 'A'
  | 'É' => 'E' | 'È' => 'E' | 'Ê' => 'E' | 'Ë' => 'E'
  | 'Í' => 'I' | 'Ì' => 'I' | 'Î' => 'I' | 'Ï' => 'I'
  | 'Ó' => 'O' | 'Ò' => 'O' | 'Ô' => 'O' | 'Õ' => 'O' | 'Ö' => 'O'
  | 'Ú' => 'U' | 'Ù' => 'U' | 'Û' => 'U' | 'Ü' => 'U'
  | 'Ç' => 'C' | 'Ñ' => 'N'
  | _ => c

/-- Whether a character is a combining diacritical mark (U+0300..U+036F),
the range removed by `.replace(/[̀-ͯ]/g, "")` in `sheets.js`. -/
def isCombining (c : Char) : Bool := decide (0x300 ≤ c.toNat ∧ c.toNat ≤ 0x36F)

/-- `toUpperCase` + NFD + strip combining marks, per character list. -/
def cleanList (l : List Char) : List Char :=
  ((l.map jsUpperChar).filter (fun c => ¬ isCombining c)).map deaccent

/-- Collapse every maximal run of JavaScript whitespace into a single space,
as `.replace(/\s+/g, " ")`. -/
def collapseWs : List Char → List Char
  | [] => []
  | [c] => if isJsSpace c then [' '] else [c]
  | a :: b :: t =>
    if isJsSpace a && isJsSpace b then collapseWs (b :: t)
    else (if isJsSpace a then ' ' else a) :: collapseWs (b :: t)

/-- `norm` of `sheets.js`: uppercase, strip diacritics, collapse whitespace
runs into a single space, trim (applied in that order), per character list. -/
def normList (l : List Char) : List Char := jsTrimL (collapseWs (cleanList l))

/-- `norm` of `sheets.js` on strings. -/
def norm (s : String) : String := ⟨normList s.data⟩

/-- List prefix test. -/
def isPrefList : List Char → List Char → Bool
  | [], _ => true
  | _ :: _, [] => false
  | a :: t, b :: u => a = b && isPrefList t u

/-- List substring (contiguous sublist) test. -/
def containsSubL (needle : List Char) : List Char → Bool
  | [] => isPrefList needle []
  | c :: t => isPrefList needle (c :: t) || containsSubL needle t

/-- Substring containment, as `String.prototype.includes`. -/
def containsSub (hay needle : String) : Bool := containsSubL needle.data hay.data

/-- Strip every occurrence of `R$` / `r$` from a character list, as
`.replace(/R\$/gi, "")` in `parseNumber`. -/
def stripRS : List Char → List Char
  | [] => []
  | [c] => [c]
  | a :: b :: t =>
    if (a = 'R' ∨ a = 'r') ∧ b = '$' then stripRS t
    else a :: stripRS (b :: t)

/-- Remove all JavaScript whitespace, as `.replace(/\s| /g, "")`. -/
def removeWs (l : List Char) : List Char := l.filter (fun c => ¬ isJsSpace c)

/-- Remove every `.`, as `.replace(/\./g, "")`. -/
def removeDots (l : List Char) : List Char := l.filter (fun c => c ≠ '.')

/-- Replace the first `,` (if any) by `.`, as `.replace(",", ".")` with a
string pattern, which substitutes only the first occurrence. -/
def commaToDot : List Char → List Char
  | [] => []
  | c :: t => if c = ',' then '.' :: t else c :: commaToDot t

/-- The string transformation `parseNumber` applies before converting:
strip `R$` (case-insensitively), strip whitespace, strip `.`, first `,` → `.`. -/
def transformBRL (s : String) : String :=
  ⟨commaToDot (removeDots (removeWs (stripRS s.data)))⟩

/-- Numeric value of a decimal digit list, most significant first. -/
def digitsToNat (ds : List Char) : ℕ :=
  ds.foldl (fun a c => a * 10 + (c.toNat - 48)) 0

/-- Parse a non-empty all-digit list as a natural number. -/
def allDigitsVal (ds : List Char) : Option ℕ :=
  if ds ≠ [] ∧ ds.all Char.isDigit then some (digitsToNat ds) else none

/-- Parse the exponent tail of a JavaScript decimal literal: either nothing,
or `e`/`E`, an optional sign, and at least one digit reaching end of input. -/
def expTail : List Char → Option ℤ
  | [] => some 0
  | c :: t =>
    if c = 'e' ∨ c = 'E' then
      match t with
      | '+' :: u => (allDigitsVal u).map (fun n => (n : ℤ))
      | '-' :: u => (allDigitsVal u).map (fun n => -(n : ℤ))
      | u => (allDigitsVal u).map (fun n => (n : ℤ))
    else none

/-- Parse an unsigned JavaScript decimal literal (digits, optional fraction,
optional exponent; or a leading dot with digits), anchored to end of input. -/
def parseDecU (l : List Char) : Option ℚ :=
  let ip := l.takeWhile Char.isDigit
  let r₁ := l.dropWhile Char.isDigit
  match r₁ with
  | '.' :: r₂ =>
    let fp := r₂.takeWhile Char.isDigit
    let r₃ := r₂.dropWhile Char.isDigit
    if ip = [] ∧ fp = [] then none
    else (expTail r₃).map fun e =>
      ((digitsToNat ip : ℚ) + (digitsToNat fp : ℚ) / (10 : ℚ) ^ fp.length) * (10 : ℚ) ^ e
  | _ =>
    if ip = [] then none
    else (expTail r₁).map fun e => (digitsToNat ip : ℚ) * (10 : ℚ) ^ e

/-- Parse a signed JavaScript decimal literal. -/
def parseDec (l : List Char) : Option ℚ :=
  match l with
  | '+' :: t => parseDecU t
  | '-' :: t => (parseDecU t).map Neg.neg
  | _ => parseDecU l

/-- Value of a digit in radix `r` (hex digits case-insensitive). -/
def digitInRadix (r : ℕ) (c : Char) : Option ℕ :=
  let v : Option ℕ :=
    if '0' ≤ c ∧ c ≤ '9' then some (c.toNat - 48)
    else if 'a' ≤ c ∧ c ≤ 'f' then some (c.toNat - 87)
    else if 'A' ≤ c ∧ c ≤ 'F' then some (c.toNat - 55)
    else none
  match v with
  | some n => if n < r then some n else none
  | none => none

/-- Parse a non-empty digit string in radix `r` (used after `0x`/`0o`/`0b`). -/
def radixVal (r : ℕ) (t : List Char) : JSNum :=
  if t = [] then JSNum.nan
  else
    match t.mapM (digitInRadix r) with
    | some ds => JSNum.fin ((ds.foldl (fun a d => a * r + d) 0 : ℕ) : ℚ)
    | none => JSNum.nan

/-- JavaScript `Number(string)` conversion: trim, empty → 0, `±Infinity`,
`0x`/`0o`/`0b` literals, otherwise a signed decimal literal; anything else
is NaN.  Finite values are exact (no IEEE rounding / overflow to Infinity). -/
def jsNumberOfString (s : String) : JSNum :=
  let l := jsTrimL s.data
  if l = [] then JSNum.fin 0
  else if l = "Infinity".data ∨ l = "+Infinity".data then JSNum.inf
  else if l = "-Infinity".data then JSNum.ninf
  else
    match l with
    | '0' :: 'x' :: t => radixVal 16 t
    | '0' :: 'X' :: t => radixVal 16 t
    | '0' :: 'o' :: t => radixVal 8 t
    | '0' :: 'O' :: t => radixVal 8 t
    | '0' :: 'b' :: t => radixVal 2 t
    | '0' :: 'B' :: t => radixVal 2 t
    | _ =>
      match parseDec l with
      | some q => JSNum.fin q
      | none => JSNum.nan

/-- `isNaN(n) ? 0 : n`. -/
def orZero : JSNum → JSNum
  | JSNum.nan => JSNum.fin 0
  | x => x

/-- `parseNumber` of `index.js` (lines 43-58). -/
def parseNumber (v : JSVal) : JSNum :=
  match v with
  | JSVal.vnull => JSNum.fin 0
  | JSVal.vundef => JSNum.fin 0
  | JSVal.vnum n => orZero n
  | JSVal.vstr s => orZero (jsNumberOfString (transformBRL s))

/-- A spec-literal base-10 parse (§4.2: “parse as a base-10 floating-point
number; returns 0 if the result is not a valid number”), used to compare the
spec's wording against the code's use of `Number()`.  Modelled from the
spec: a signed base-10 decimal literal with optional fraction and exponent;
no hex/octal/binary forms and no `Infinity`. -/
def specBase10 (s : String) : JSNum :=
  match parseDec s.data with
  | some q => JSNum.fin q
  | none => JSNum.fin 0

/-- The spec's reading of `parseNumber` (§4.2), with the base-10 parse. -/
def specParseNumber (v : JSVal) : JSNum :=
  match v with
  | JSVal.vnull => JSNum.fin 0
  | JSVal.vundef => JSNum.fin 0
  | JSVal.vnum n => orZero n
  | JSVal.vstr s =>
    let t := transformBRL s
    if t.data = [] then JSNum.fin 0 else specBase10 t

/-- JavaScript truthiness of a `JSVal`. -/
def jsTruthy : JSVal → Bool
  | JSVal.vstr s => s ≠ ""
  | JSVal.vnum JSNum.nan => false
  | JSVal.vnum (JSNum.fin q) => q ≠ 0
  | JSVal.vnum _ => true
  | JSVal.vnull => false
  | JSVal.vundef => false

/-- Rendering of a `JSNum` as `String(v)` would produce.  The exact digits of
the finite case never matter to the properties proved here (no finite
number's rendering contains two `/` characters); the rational's canonical
rendering stands in for JavaScript float formatting. -/
def numToString : JSNum → String
  | JSNum.nan => "NaN"
  | JSNum.inf => "Infinity"
  | JSNum.ninf => "-Infinity"
  | JSNum.fin q => toString q

/-- `String(v)` for the modelled values. -/
def jsToString : JSVal → String
  | JSVal.vstr s => s
  | JSVal.vnum n => numToString n
  | JSVal.vnull => "null"
  | JSVal.vundef => "undefined"

/-- `s.split(" ")[0]`: the text before the first space. -/
def firstTok (s : String) : String := ⟨s.data.takeWhile (fun c => c ≠ ' ')⟩

/-- Match `^(\d{2})/(\d{2})/(\d{4})$` and rebuild as `YYYY-MM-DD`. -/
def matchDMY (s : String) : Option String :=
  match s.data with
  | [a, b, '/', c, d, '/', e, f, g, h] =>
    if [a, b, c, d, e, f, g, h].all Char.isDigit then
      some ⟨[e, f, g, h, '-', c, d, '-', a, b]⟩
    else none
  | _ => none

/-- `parseDateISO` of `index.js` (lines 61-72). -/
def parseDateISO (v : JSVal) : Option String :=
  if jsTruthy v then matchDMY (firstTok (jsTrimStr (jsToString v)))
  else none

/-- C3's reading of `parseDateISO`, transcribed from the claim's words: the
text before the first space of the RAW input (no trimming) must match the
`DD/MM/YYYY` pattern.  The code trims first, so the two disagree on input
with leading whitespace; kept for the refutation. -/
def specParseDateISO (v : JSVal) : Option String :=
  if jsTruthy v then matchDMY (firstTok (jsToString v))
  else none

/-- `canonicalHeaderName` of `sheets.js`: canonicalize one raw header cell. -/
def canonicalHeaderName (raw : String) : String :=
  let n := norm raw
  if containsSub n "DATA APOSTA" then "DATA APOSTA"
  else if n = "LUCRO" then "LUCRO"
  else if n = "STAKE" then "STAKE"
  else if n = "CASA" ∨ containsSub n "BOOK" then "CASA"
  else if n = "ESPORTE" ∨ n = "ESPORTES" then "ESPORTE"
  else if containsSub n "DATA EVENTO" ∨ containsSub n "DATA JOGO" then "DATA EVENTO"
  else if n = "EVENTO" ∨ n = "PARTIDA" ∨ containsSub n "MATCH" then "EVENTO"
  else jsTrimStr raw

/-- The spec's matching rules (§4.1) as an explicit priority-ordered list of
(test, canonical name) pairs over the normalized text. -/
def headerRules : List ((String → Bool) × String) :=
  [(fun n => containsSub n "DATA APOSTA", "DATA APOSTA"),
   (fun n => n == "LUCRO", "LUCRO"),
   (fun n => n == "STAKE", "STAKE"),
   (fun n => n == "CASA" || containsSub n "BOOK", "CASA"),
   (fun n => n == "ESPORTE" || n == "ESPORTES", "ESPORTE"),
   (fun n => containsSub n "DATA EVENTO" || containsSub n "DATA JOGO", "DATA EVENTO"),
   (fun n => n == "EVENTO" || n == "PARTIDA" || containsSub n "MATCH", "EVENTO")]

/-- First-match-wins evaluation of a rule list. -/
def firstMatchWins (n : String) : List ((String → Bool) × String) → Option String
  | [] => none
  | r :: t => if r.1 n then some r.2 else firstMatchWins n t

/-- §4.1 restated: normalize, try the rules in priority order with first match
winning, otherwise fall back to the original text trimmed only. -/
def headerRuleSpec (raw : String) : String :=
  (firstMatchWins (norm raw) headerRules).getD (jsTrimStr raw)

/-- A row object produced by `extractRowsFromValues`: canonical column name to
cell string; absent columns read as `undefined` (`none`).  The row object is
a plain `{}` too, but the handlers only ever read it at the seven fixed
canonical names (`DATA APOSTA`, `LUCRO`, `STAKE`, `CASA`, `ESPORTE`,
`EVENTO`, `DATA EVENTO`), none of which is an `Object.prototype` property,
so the missing-key read is `undefined` for every read the program performs. -/
def RowObj : Type := String → Option String

/-- Project one data row into a row object: `header.forEach((col, idx) => { if
(!col) return; obj[col] = row[idx] ?? ""; })`.  Later assignments overwrite
earlier ones, as for JavaScript object properties. -/
def projectRow (header : List String) (row : List String) : RowObj :=
  header.enum.foldl
    (fun m p =>
      if p.2 = "" then m
      else fun k => if k = p.2 then some (row.getD p.1 "") else m k)
    (fun _ => none)

/-- Whether a grid row is a header row: some cell's normalized text contains
`DATA APOSTA`. -/
def isHeaderRow (row : List String) : Bool :=
  row.any (fun cell => containsSub (norm cell) "DATA APOSTA")

/-- Whether a grid row has at least one cell that is non-blank after trimming
(`row.some((cell) => String(cell).trim() !== "")`). -/
def isNonBlankRow (row : List String) : Bool :=
  row.any (fun cell => jsTrimL cell.data ≠ [])

/-- `extractRowsFromValues` of `sheets.js` (lines 511-549): locate the header
row, reuse the previously established header if one is supplied (else
canonicalize this tab's header row), and project the non-blank rows below the
header row. -/
def extractRowsFromValues (values : List (List String))
    (mainHeader : Option (List String)) : Option (List String) × List RowObj :=
  if values = [] then (mainHeader, [])
  else
    match values.findIdx? isHeaderRow with
    | none => (mainHeader, [])
    | some headerIndex =>
      let headerRow := values.getD headerIndex []
      let headerRaw := mainHeader.getD headerRow
      let header := headerRaw.map canonicalHeaderName
      let dataRows := (values.drop (headerIndex + 1)).filter isNonBlankRow
      (some header, dataRows.map (projectRow header))

/-- A normalized record, one per kept sheet row (§3 NormalizedRecord; rows
with an unparseable `DATA APOSTA` never become records). -/
structure NormalizedRecord where
  dataAposta : String
  operador : String
  casa : String
  esporte : String
  evento : String
  dataEvento : String
  stake : JSNum
  lucro : JSNum
deriving DecidableEq

/-- A betting entry (grupo): records sharing the composite key. -/
structure Grupo where
  dataAposta : String
  operador : String
  evento : String
  esporte : String
  lucroTotal : JSNum
  stakeTotal : JSNum
deriving DecidableEq

/-- One point of the `lucroPorDia` series.  The value is a `JSVal`: the
accumulator map is a plain object whose values are numbers except when a date
key collides with an `Object.prototype` property, in which case `+=` on the
truthy inherited read creates a string entry by concatenation. -/
structure DayStat where
  date : String
  lucro : JSVal
deriving DecidableEq

/-- Accumulator of the `porOperador` breakdown. -/
structure OperadorAcc where
  operador : String
  entradas : ℕ
  lucro : JSNum
  stake_total : JSNum
deriving DecidableEq

/-- Finalized `porOperador` entry (with derived yield). -/
structure OperadorStat where
  operador : String
  entradas : ℕ
  lucro : JSNum
  stake_total : JSNum
  yield_percent : JSNum
deriving DecidableEq

/-- Accumulator of the `porCasa` breakdown. -/
structure CasaAcc where
  casa : String
  entradas : ℕ
  lucro : JSNum
  stake_total : JSNum
deriving DecidableEq

/-- Finalized `porCasa` entry. -/
structure CasaStat where
  casa : String
  entradas : ℕ
  lucro : JSNum
  stake_total : JSNum
  yield_percent : JSNum
deriving DecidableEq

/-- Accumulator of the `porEsporte` breakdown. -/
structure EsporteAcc where
  esporte : String
  entradas : ℕ
  lucro : JSNum
  stake_total : JSNum
deriving DecidableEq

/-- Finalized `porEsporte` entry. -/
structure EsporteStat where
  esporte : String
  entradas : ℕ
  lucro : JSNum
  stake_total : JSNum
  yield_percent : JSNum
deriving DecidableEq

/-- The `overview` block of the statistics response. -/
structure OverviewStats where
  totalLucro : JSNum
  totalStake : JSNum
  totalApostas : ℕ
  yieldPercent : JSNum
  greenPercent : JSNum
  redPercent : JSNum
deriving DecidableEq

/-- The full statistics response of the dashboard handlers. -/
structure Stats where
  overview : OverviewStats
  lucroPorDia : List DayStat
  porOperador : List OperadorStat
  porCasa : List CasaStat
  porEsporte : List EsporteStat
deriving DecidableEq

/-- First-match lookup in an association list (JavaScript map/object read;
keys are unique in all uses). -/
def lookupKey {K β : Type} [DecidableEq K] (k : K) : List (K × β) → Option β
  | [] => none
  | p :: t => if p.1 = k then some p.2 else lookupKey k t

/-- Update every entry with the given key (at most one in all uses). -/
def updAt {K β : Type} [DecidableEq K] (k : K) (f : β → β)
    (l : List (K × β)) : List (K × β) :=
  l.map fun p => if p.1 = k then (p.1, f p.2) else p

/-- One step of the `Map`-based grouping idiom
`if (!map.has(k)) map.set(k, init); upd(map.get(k), x)`:
insert-on-miss (at the end, preserving insertion order), then update.
`Map.has` is a genuine presence test, so this models `gruposMap` exactly. -/
def jsGroupStep {α K β : Type} [DecidableEq K] (key : α → K) (init : α → β)
    (upd : β → α → β) (acc : List (K × β)) (a : α) : List (K × β) :=
  match lookupKey (key a) acc with
  | some _ => updAt (key a) (fun b => upd b a) acc
  | none => acc ++ [(key a, upd (init a) a)]

/-- The `Map` grouping idiom over a list, producing entries in key
first-occurrence order (JavaScript `Map` iteration order; the claims proved
here do not depend on the entry order). -/
def jsGroup {α K β : Type} [DecidableEq K] (key : α → K) (init : α → β)
    (upd : β → α → β) (l : List α) : List (K × β) :=
  l.foldl (jsGroupStep key init upd) []

/-- The own property names of `Object.prototype`: a read of a key missing
from a plain `{}` continues into the prototype and finds these, all bound to
truthy values (methods, and the `__proto__` accessor yielding
`Object.prototype` itself). -/
def protoProps : List String :=
  ["constructor", "hasOwnProperty", "isPrototypeOf", "propertyIsEnumerable",
   "toLocaleString", "toString", "valueOf", "__proto__",
   "__defineGetter__", "__defineSetter__", "__lookupGetter__", "__lookupSetter__"]

/-- One step of the plain-`{}` grouping idiom over OBJECT values,
`if (!map[k]) map[k] = init(x); const o = map[k]; o.f += ...` (the
`operadorMap`/`casaMap`/`esporteMap` loops of `buildStatsFromData`): own
values are objects, hence truthy, so for an own key the falsiness test is a
presence test; for a missing key the read traverses the prototype chain, so
a key colliding with an inherited `Object.prototype` property finds a truthy
value, the init is skipped, and the update mutates the inherited object —
never an own entry, hence invisible to `Object.values(map)`. -/
def jsObjStep {α β : Type} (key : α → String) (init : α → β)
    (upd : β → α → β) (acc : List (String × β)) (a : α) : List (String × β) :=
  match lookupKey (key a) acc with
  | some _ => updAt (key a) (fun b => upd b a) acc
  | none =>
    if key a ∈ protoProps then acc
    else acc ++ [(key a, upd (init a) a)]

/-- The plain-object grouping idiom over a list.  Own entries are kept in
insertion order; `Object.values` lists integer-like keys first, but every
statement proved below about these lists is order-insensitive (a sum or a
permutation), so insertion order stands in for the enumeration order. -/
def jsObjGroup {α β : Type} (key : α → String) (init : α → β)
    (upd : β → α → β) (l : List α) : List (String × β) :=
  l.foldl (jsObjStep key init upd) []

/-- What the inherited `Object.prototype[k]` read of a DATA property (a
method slot) renders as when `+` forces it to a primitive (Node/V8): the
`constructor` slot holds the `Object` function, the rest render as their own
name.  The one accessor, `__proto__`, is handled separately in `dayStep`:
its inherited setter ignores a primitive assignment, so `m["__proto__"] +=
v` creates no own entry at all. -/
def protoRead (k : String) : String :=
  if k = "constructor" then "function Object() \x7b [native code] \x7d"
  else "function " ++ k ++ "() \x7b [native code] \x7d"

/-- JavaScript `+` as it occurs in the day accumulator, on the values that
can be stored there: a string operand concatenates (the number rendered by
`numToString`), two numbers add, `null` counts as `0` and `undefined` makes
`NaN`. -/
def jsPlusNum (x : JSVal) (v : JSNum) : JSVal :=
  match x with
  | JSVal.vstr s => JSVal.vstr (s ++ numToString v)
  | JSVal.vnum a => JSVal.vnum (jadd a v)
  | JSVal.vnull => JSVal.vnum (jadd (JSNum.fin 0) v)
  | JSVal.vundef => JSVal.vnum (jadd JSNum.nan v)

/-- One step of the day accumulator
`if (!m[k]) m[k] = 0; m[k] += v` on a plain `{}` holding numbers
(`lucroPorDiaMap` of `buildStatsFromData`): the test is FALSINESS of the
read, not presence — an own `0` or `NaN` accumulator is reset to `0` before
adding — and a missing key colliding with an `Object.prototype` property
reads a truthy inherited value, skips the init, and the `+=` then creates an
own STRING entry by concatenation — except for `"__proto__"`, whose
inherited SETTER swallows the assignment of a primitive, so no own entry is
ever created for it. -/
def dayStep (acc : List (String × JSVal)) (k : String) (v : JSNum) :
    List (String × JSVal) :=
  match lookupKey k acc with
  | some x =>
    if jsTruthy x then updAt k (fun y => jsPlusNum y v) acc
    else updAt k (fun _ => jsPlusNum (JSVal.vnum (JSNum.fin 0)) v) acc
  | none =>
    if k = "__proto__" then acc
    else if k ∈ protoProps then
      acc ++ [(k, JSVal.vstr (protoRead k ++ numToString v))]
    else acc ++ [(k, jsPlusNum (JSVal.vnum (JSNum.fin 0)) v)]

/-- The day accumulator over a record list (after the `!d.dataAposta` guard). -/
def dayGroup (l : List NormalizedRecord) : List (String × JSVal) :=
  l.foldl (fun m d => dayStep m d.dataAposta d.lucro) []

/-- Whether a `JSNum` is finite. -/
def isFinNum : JSNum → Bool
  | JSNum.fin _ => true
  | _ => false

/-- The composite entry key
`${d.dataAposta || ""}|${(d.evento || "").toLowerCase().trim()}|${d.operador}`. -/
def grupoKey (d : NormalizedRecord) : String :=
  d.dataAposta ++ "|" ++ jsTrimStr (jsLowerStr d.evento) ++ "|" ++ d.operador

/-- The fresh group seeded from a record (lines 331-338 / 416-423). -/
def grupoInit (d : NormalizedRecord) : Grupo :=
  ⟨d.dataAposta, d.operador, d.evento, d.esporte, JSNum.fin 0, JSNum.fin 0⟩

/-- Accumulate a record into its group (lines 340-342 / 425-427). -/
def grupoUpd (g : Grupo) (d : NormalizedRecord) : Grupo :=
  { g with lucroTotal := jadd g.lucroTotal d.lucro,
           stakeTotal := jadd g.stakeTotal d.stake }

/-- Group records into entries, in key first-occurrence order
(`Array.from(gruposMap.values())`). -/
def groupRecords (data : List NormalizedRecord) : List Grupo :=
  (jsGroup grupoKey grupoInit grupoUpd data).map (·.2)

/-- `EPS = 1e-6` (exact value in the rational model). -/
def epsNum : JSNum := JSNum.fin (1 / 1000000)

/-- `-EPS`. -/
def negEpsNum : JSNum := JSNum.fin (-(1 / 1000000))

/-- An entry is green when `lucroTotal > EPS`. -/
def isGreen (g : Grupo) : Bool := jlt epsNum g.lucroTotal

/-- An entry is red when `lucroTotal < -EPS`. -/
def isRed (g : Grupo) : Bool := jlt g.lucroTotal negEpsNum

/-- Sort the per-day entries ascending by date string.  With pairwise distinct
dates (always true for map entries) this is the unique strictly ascending
arrangement, hence agrees with the JavaScript
`sort((a, b) => (a.date < b.date ? -1 : 1))`. -/
def sortByDate (l : List DayStat) : List DayStat :=
  l.insertionSort (fun a b => a.date ≤ b.date)

/-- Finalize a `porOperador` accumulator with its derived yield. -/
def finOperador (o : OperadorAcc) : OperadorStat :=
  ⟨o.operador, o.entradas, o.lucro, o.stake_total,
    if jlt (JSNum.fin 0) o.stake_total
    then jmul (jdiv o.lucro o.stake_total) (JSNum.fin 100) else JSNum.fin 0⟩

/-- Finalize a `porCasa` accumulator. -/
def finCasa (c : CasaAcc) : CasaStat :=
  ⟨c.casa, c.entradas, c.lucro, c.stake_total,
    if jlt (JSNum.fin 0) c.stake_total
    then jmul (jdiv c.lucro c.stake_total) (JSNum.fin 100) else JSNum.fin 0⟩

/-- Finalize a `porEsporte` accumulator. -/
def finEsporte (e : EsporteAcc) : EsporteStat :=
  ⟨e.esporte, e.entradas, e.lucro, e.stake_total,
    if jlt (JSNum.fin 0) e.stake_total
    then jmul (jdiv e.lucro e.stake_total) (JSNum.fin 100) else JSNum.fin 0⟩

/-- `buildStatsFromData` of `index.js` (lines 161-270). -/
def buildStatsFromData (data : List NormalizedRecord) (grupos : List Grupo) : Stats :=
  let totalEntradas := grupos.length
  let totalStake := jsum (data.map (·.stake))
  let totalLucro := jsum (data.map (·.lucro))
  let yieldPercent :=
    if jlt (JSNum.fin 0) totalStake
    then jmul (jdiv totalLucro totalStake) (JSNum.fin 100) else JSNum.fin 0
  let greens := (grupos.filter isGreen).length
  let reds := (grupos.filter isRed).length
  let totalResolvidas := greens + reds
  let greenPercent :=
    if 0 < totalResolvidas
    then jmul (jdiv (JSNum.fin greens) (JSNum.fin totalResolvidas)) (JSNum.fin 100)
    else JSNum.fin 0
  let redPercent :=
    if 0 < totalResolvidas
    then jmul (jdiv (JSNum.fin reds) (JSNum.fin totalResolvidas)) (JSNum.fin 100)
    else JSNum.fin 0
  let lucroPorDia :=
    sortByDate ((dayGroup (data.filter (fun d => d.dataAposta ≠ ""))).map
      (fun p => DayStat.mk p.1 p.2))
  let porOperador :=
    ((jsObjGroup (fun g => g.operador)
        (fun g => OperadorAcc.mk g.operador 0 (JSNum.fin 0) (JSNum.fin 0))
        (fun o g => ⟨o.operador, o.entradas + 1, jadd o.lucro g.lucroTotal,
                     jadd o.stake_total g.stakeTotal⟩)
        grupos).map (fun p => finOperador p.2))
  let porCasa :=
    ((jsObjGroup (fun d => d.casa)
        (fun d => CasaAcc.mk d.casa 0 (JSNum.fin 0) (JSNum.fin 0))
        (fun c d => ⟨c.casa, c.entradas + 1, jadd c.lucro d.lucro,
                     jadd c.stake_total d.stake⟩)
        (data.filter (fun d => d.casa ≠ ""))).map (fun p => finCasa p.2))
  let porEsporte :=
    ((jsObjGroup (fun d => d.esporte)
        (fun d => EsporteAcc.mk d.esporte 0 (JSNum.fin 0) (JSNum.fin 0))
        (fun e d => ⟨e.esporte, e.entradas + 1, jadd e.lucro d.lucro,
                     jadd e.stake_total d.stake⟩)
        (data.filter (fun d => d.esporte ≠ ""))).map (fun p => finEsporte p.2))
  ⟨⟨totalLucro, totalStake, totalEntradas, yieldPercent, greenPercent, redPercent⟩,
   lucroPorDia, porOperador, porCasa, porEsporte⟩

/-- Read a row-object field as the `JSVal` the handler sees. -/
def optVal (o : Option String) : JSVal := o.elim JSVal.vundef JSVal.vstr

/-- `(sheet.name || "SEM OPERADOR").trim()`. -/
def operadorOf (sheetName : String) : String :=
  jsTrimStr (if sheetName = "" then "SEM OPERADOR" else sheetName)

/-- The record-construction and filtering loop of `GET
/api/dashboard/overview` (index.js lines 291-321).  Query parameters are
modelled as strings, the empty string standing for an absent (falsy)
parameter. -/
def overviewRecords (sheetName operadorQ fromQ toQ : String)
    (rows : List RowObj) : List NormalizedRecord :=
  rows.filterMap fun r =>
    match parseDateISO (optVal (r "DATA APOSTA")) with
    | none => none
    | some iso =>
      let lucro := parseNumber (optVal (r "LUCRO"))
      let stake := parseNumber (optVal (r "STAKE"))
      let casa := (r "CASA").getD ""
      let esporte := (r "ESPORTE").getD ""
      let evento := jsTrimStr ((r "EVENTO").getD "")
      let dataEvento := jsTrimStr ((r "DATA EVENTO").getD "")
      let op := operadorOf sheetName
      if operadorQ ≠ "" ∧ op ≠ operadorQ then none
      else if fromQ ≠ "" ∧ iso < fromQ then none
      else if toQ ≠ "" ∧ toQ < iso then none
      else some ⟨iso, op, casa, esporte, evento, dataEvento, stake, lucro⟩

/-- The full single-sheet dashboard computation: records, entry grouping,
statistics (index.js lines 291-346). -/
def overviewPipeline (sheetName operadorQ fromQ toQ : String)
    (rows : List RowObj) : Stats :=
  let data := overviewRecords sheetName operadorQ fromQ toQ rows
  buildStatsFromData data (groupRecords data)

/-- The record-construction loop of `GET /api/dashboard/overview-all`
(index.js lines 370-429): sheets are pairs of display name and fetched rows;
the `operador` filter skips whole sheets, `from`/`to` filter rows. -/
def overviewAllRecords (sheets : List (String × List RowObj))
    (operadorQ fromQ toQ : String) : List NormalizedRecord :=
  sheets.flatMap fun p =>
    let opName := operadorOf p.1
    if operadorQ ≠ "" ∧ opName ≠ operadorQ then []
    else
      p.2.filterMap fun r =>
        match parseDateISO (optVal (r "DATA APOSTA")) with
        | none => none
        | some iso =>
          let lucro := parseNumber (optVal (r "LUCRO"))
          let stake := parseNumber (optVal (r "STAKE"))
          let casa := (r "CASA").getD ""
          let esporte := (r "ESPORTE").getD ""
          let evento := jsTrimStr ((r "EVENTO").getD "")
          let dataEvento := jsTrimStr ((r "DATA EVENTO").getD "")
          if fromQ ≠ "" ∧ iso < fromQ then none
          else if toQ ≠ "" ∧ toQ < iso then none
          else some ⟨iso, opName, casa, esporte, evento, dataEvento, stake, lucro⟩

/-- The full all-sheets dashboard computation (index.js lines 361-432); the
inline grouping over the shared `gruposMap` is grouping of the concatenated
record list, built in the same order. -/
def overviewAllPipeline (sheets : List (String × List RowObj))
    (operadorQ fromQ toQ : String) : Stats :=
  let data := overviewAllRecords sheets operadorQ fromQ toQ
  buildStatsFromData data (groupRecords data)

/-- A registered sheet row of the `sheets` table. -/
structure SheetReg where
  id : ℕ
  name : String
  google_sheet_id : String
  range : String
deriving DecidableEq

/-- A response body, as far as field structure is concerned.  Boolean JSON
values are rendered as their JavaScript source text. -/
inductive ResBody where
  | arr (sheets : List SheetReg) : ResBody
  | one (sheet : SheetReg) : ResBody
  | stats (s : Stats) : ResBody
  | obj (fields : List (String × String)) : ResBody

/-- The field names of a response body (empty for non-object bodies). -/
def ResBody.fieldNames : ResBody → List String
  | ResBody.obj fields => fields.map (·.1)
  | _ => []

/-- `GET /api/sheets` (index.js lines 75-83): the DB read either succeeds or
throws; the catch branch answers 500 with an `error` field only. -/
def apiSheetsList (db : Except String (List SheetReg)) : ℕ × ResBody :=
  match db with
  | Except.ok rows => (200, ResBody.arr rows)
  | Except.error _ => (500, ResBody.obj [("error", "Erro ao listar planilhas")])

/-- `POST /api/sheets` (index.js lines 86-113); body fields are strings, the
empty string standing for a missing (falsy) field. -/
def apiSheetsCreate (name googleSheetId : String)
    (ins : Except String SheetReg) : ℕ × ResBody :=
  if name = "" ∨ googleSheetId = "" then
    (400, ResBody.obj [("error", "name e googleSheetId são obrigatórios")])
  else
    match ins with
    | Except.ok created => (201, ResBody.one created)
    | Except.error _ => (500, ResBody.obj [("error", "Erro ao cadastrar planilha")])

/-- `DELETE /api/sheets/:id` (index.js lines 116-135). -/
def apiSheetsDelete (found : Except String (Option SheetReg))
    (del : Except String Unit) : ℕ × ResBody :=
  match found with
  | Except.error _ => (500, ResBody.obj [("error", "Erro ao remover planilha")])
  | Except.ok none => (404, ResBody.obj [("error", "Planilha não encontrada")])
  | Except.ok (some _) =>
    match del with
    | Except.error _ => (500, ResBody.obj [("error", "Erro ao remover planilha")])
    | Except.ok _ => (200, ResBody.obj [("success", "true")])

/-- `POST /api/dashboard/refresh-sheets` (index.js lines 141-156). -/
def apiRefreshSheets (clear : Except String Unit) : ℕ × ResBody :=
  match clear with
  | Except.ok _ =>
    (200, ResBody.obj
      [("ok", "true"),
       ("message", "Cache de planilhas limpo. Na próxima carga do dashboard ele vai ler tudo de novo do Google Sheets.")])
  | Except.error e =>
    (500, ResBody.obj [("error", "Erro ao limpar cache"), ("detail", e)])

/-- `GET /api/dashboard/overview` (index.js lines 276-355): validation, sheet
lookup, row fetch, pipeline; every throwing step funnels into the catch. -/
def apiDashboardOverview (sheetDbId : String)
    (lookup : Except String (Option SheetReg))
    (fetch : Except String (List RowObj))
    (operadorQ fromQ toQ : String) : ℕ × ResBody :=
  if sheetDbId = "" then (400, ResBody.obj [("error", "sheetDbId é obrigatório")])
  else
    match lookup with
    | Except.error e =>
      (500, ResBody.obj [("error", "Erro ao montar overview"), ("detail", e)])
    | Except.ok none => (404, ResBody.obj [("error", "Planilha não encontrada")])
    | Except.ok (some sheet) =>
      match fetch with
      | Except.error e =>
        (500, ResBody.obj [("error", "Erro ao montar overview"), ("detail", e)])
      | Except.ok rows =>
        (200, ResBody.stats (overviewPipeline sheet.name operadorQ fromQ toQ rows))

/-- `GET /api/dashboard/overview-all` (index.js lines 361-442): the DB read
and the per-sheet fetches either produce the name/rows list or throw into
the catch; an empty registry answers 400. -/
def apiDashboardOverviewAll (sheetsData : Except String (List (String × List RowObj)))
    (operadorQ fromQ toQ : String) : ℕ × ResBody :=
  match sheetsData with
  | Except.error e =>
    (500, ResBody.obj [("error", "Erro ao montar overview geral"), ("detail", e)])
  | Except.ok [] => (400, ResBody.obj [("error", "Nenhuma planilha cadastrada")])
  | Except.ok sheets =>
    (200, ResBody.stats (overviewAllPipeline sheets operadorQ fromQ toQ))

/-- The aggregate the grouping idiom holds for key `k` after processing `l`:
none when no element has key `k`, else the fold of the updates over the
key-`k` class seeded from its first element. -/
def aggClass {α K β : Type} [DecidableEq K] (key : α → K) (init : α → β)
    (upd : β → α → β) (k : K) (l : List α) : Option β :=
  match l.filter (fun a => key a = k) with
  | [] => none
  | h :: t => some ((h :: t).foldl upd (init h))

/-- The fields of a group that `buildStatsFromData` actually reads:
operador, lucroTotal, stakeTotal. -/
def grupoProj (g : Grupo) : String × JSNum × JSNum :=
  (g.operador, g.lucroTotal, g.stakeTotal)

/-- The fields of a record the entry-grouping stage depends on:
composite key, operador, lucro, stake. -/
def recProj (d : NormalizedRecord) : String × String × JSNum × JSNum :=
  (grupoKey d, d.operador, d.lucro, d.stake)

/-- Key-operador coherence: within the list, equal composite keys come from
equal operadors.  This holds in every actual request (the key embeds the
operador behind a `|` separator, and neither an ISO date nor a `|`-free
evento can shift the separator), but not for arbitrary records whose evento
contains `|`. -/
def keyOperCoherent (data : List NormalizedRecord) : Prop :=
  ∀ d ∈ data, ∀ d₂ ∈ data, grupoKey d = grupoKey d₂ → d.operador = d₂.operador

/-- Key projection of a record quadruple `(key, operador, lucro, stake)`. -/
def quadKey (p : String × String × JSNum × JSNum) : String := p.1

/-- Seed of the entry aggregate visible to the statistics, from a quadruple. -/
def quadInit (p : String × String × JSNum × JSNum) : String × JSNum × JSNum :=
  (p.2.1, JSNum.fin 0, JSNum.fin 0)

/-- Accumulation of a record quadruple into the visible entry aggregate. -/
def quadUpd (b : String × JSNum × JSNum) (p : String × String × JSNum × JSNum) :
    String × JSNum × JSNum :=
  (b.1, jadd b.2.1 p.2.2.1, jadd b.2.2 p.2.2.2)

/-- Key projection of a projected group triple `(operador, lucro, stake)`. -/
def triKey (p : String × JSNum × JSNum) : String := p.1

/-- `porOperador` seed from a projected group triple. -/
def triInit (p : String × JSNum × JSNum) : OperadorAcc :=
  ⟨p.1, 0, JSNum.fin 0, JSNum.fin 0⟩

/-- `porOperador` accumulation from a projected group triple. -/
def triUpd (o : OperadorAcc) (p : String × JSNum × JSNum) : OperadorAcc :=
  ⟨o.operador, o.entradas + 1, jadd o.lucro p.2.1, jadd o.stake_total p.2.2⟩

/-! ## Supporting lemmas -/

theorem jadd_eq_add (a b : JSNum) : jadd a b = a + b := rfl

theorem jsum_foldl_eq (l : List JSNum) : ∀ b : JSNum, l.foldl jadd b = b + l.sum := by
  induction l with
  | nil => intro b; simp
  | cons a t ih =>
    intro b
    simp only [List.foldl_cons, ih, List.sum_cons, jadd_eq_add, add_assoc]

theorem jsum_eq_sum (l : List JSNum) : jsum l = l.sum := by
  rw [jsum, jsum_foldl_eq]; exact zero_add _

theorem foldl_perm_comm {α β : Type} (f : β → α → β)
    (hc : ∀ b a a₂, f (f b a) a₂ = f (f b a₂) a) {l l₂ : List α}
    (p : l.Perm l₂) : ∀ b, l.foldl f b = l₂.foldl f b := by
  induction p with
  | nil => intro b; rfl
  | cons x _ ih => intro b; simp only [List.foldl_cons, ih]
  | swap x y t => intro b; simp only [List.foldl_cons, hc]
  | trans _ _ ih₁ ih₂ => intro b; rw [ih₁, ih₂]

theorem jsum_perm {l l₂ : List JSNum} (p : l.Perm l₂) : jsum l = jsum l₂ := by
  simp only [jsum]
  exact foldl_perm_comm jadd (fun b a a₂ => by
    rw [jadd_eq_add, jadd_eq_add, jadd_eq_add, jadd_eq_add, add_assoc, add_assoc,
      add_comm a a₂]) p _

/-! ## C10 -/

/-- C10: `parseNumber` is total and never yields NaN: for every input —
number (including NaN and the infinities), string, null, or undefined — it
returns a numeric value different from NaN. -/
theorem parseNumber_never_nan (v : JSVal) : parseNumber v ≠ JSNum.nan := by
  cases v with
  | vnull => simp [parseNumber]
  | vundef => simp [parseNumber]
  | vnum n => cases n <;> simp [parseNumber, orZero]
  | vstr s =>
    simp only [parseNumber]
    cases h : jsNumberOfString (transformBRL s) <;> simp [orZero, h]

theorem mem_commaToDot {c : Char} : ∀ {l : List Char}, c ∈ commaToDot l → c = '.' ∨ c ∈ l := by
  intro l
  induction l with
  | nil => intro h; simp [commaToDot] at h
  | cons a t ih =>
    intro h
    by_cases ha : a = ','
    · subst ha; simp only [commaToDot, if_pos rfl] at h
      rcases List.mem_cons.mp h with h₁ | h₁
      · exact Or.inl h₁
      · exact Or.inr (List.mem_cons_of_mem _ h₁)
    · simp only [commaToDot, if_neg ha] at h
      rcases List.mem_cons.mp h with h₁ | h₁
      · exact Or.inr (by simp [h₁])
      · rcases ih h₁ with h₂ | h₂
        · exact Or.inl h₂
        · exact Or.inr (List.mem_cons_of_mem _ h₂)

theorem transformBRL_no_ws (s : String) : ∀ c ∈ (transformBRL s).data, isJsSpace c = false := by
  intro c hc
  simp only [transformBRL] at hc
  rcases mem_commaToDot hc with h | h
  · subst h; decide
  · simp only [removeDots, removeWs, List.mem_filter] at h
    have := h.1.2
    simpa using this

theorem jsTrimL_of_no_ws (l : List Char) (h : ∀ c ∈ l, isJsSpace c = false) :
    jsTrimL l = l := by
  have h₁ : trimLeftJs l = l := by
    cases l with
    | nil => rfl
    | cons a t => simp [trimLeftJs, List.dropWhile_cons, h a (by simp)]
  rw [jsTrimL, h₁]
  have h₂ : l.reverse.dropWhile isJsSpace = l.reverse := by
    cases hr : l.reverse with
    | nil => rfl
    | cons a t =>
      have ha : a ∈ l := by
        rw [← List.mem_reverse, hr]; simp
      simp [List.dropWhile_cons, h a ha]
  rw [h₂, List.reverse_reverse]

theorem parseDec_two_head (c : Char) (t : List Char) (h1 : c.isDigit = false)
    (h2 : c ≠ '.') (h3 : c ≠ 'e') (h4 : c ≠ 'E') :
    parseDec ('0' :: c :: t) = none := by
  have e1 : parseDec ('0' :: c :: t) = parseDecU ('0' :: c :: t) := rfl
  have e2 : List.takeWhile Char.isDigit ('0' :: c :: t) = ['0'] := by
    simp [List.takeWhile_cons, h1]
  have e3 : List.dropWhile Char.isDigit ('0' :: c :: t) = c :: t := by
    simp [List.dropWhile_cons, h1]
  rw [e1]
  unfold parseDecU
  simp only [e2, e3]
  split
  · next r₂ heq =>
    injection heq with hc _
    exact absurd hc h2
  · simp [expTail, h3, h4]

theorem jsNumber_of_parseDec (s : String) (q : ℚ)
    (hnw : ∀ c ∈ s.data, isJsSpace c = false)
    (hp : parseDec s.data = some q) : jsNumberOfString s = JSNum.fin q := by
  obtain ⟨cs⟩ := s
  simp only [jsNumberOfString]
  rw [jsTrimL_of_no_ws _ hnw]
  have hne : ¬ cs = [] := by
    intro h
    rw [h] at hp
    exact Option.noConfusion ((show parseDec [] = none from rfl) ▸ hp)
  rw [if_neg hne]
  have hinf : ¬ (cs = "Infinity".data ∨ cs = "+Infinity".data) := by
    rintro (h | h) <;> rw [h] at hp
    · exact Option.noConfusion ((show parseDec "Infinity".data = none by decide) ▸ hp)
    · exact Option.noConfusion ((show parseDec "+Infinity".data = none by decide) ▸ hp)
  rw [if_neg hinf]
  have hninf : ¬ cs = "-Infinity".data := by
    intro h; rw [h] at hp
    exact Option.noConfusion ((show parseDec "-Infinity".data = none by decide) ▸ hp)
  rw [if_neg hninf]
  split
  · next t heq =>
    rw [heq] at hp
    rw [parseDec_two_head 'x' t (by decide) (by decide) (by decide) (by decide)] at hp
    exact Option.noConfusion hp
  · next t heq =>
    rw [heq] at hp
    rw [parseDec_two_head 'X' t (by decide) (by decide) (by decide) (by decide)] at hp
    exact Option.noConfusion hp
  · next t heq =>
    rw [heq] at hp
    rw [parseDec_two_head 'o' t (by decide) (by decide) (by decide) (by decide)] at hp
    exact Option.noConfusion hp
  · next t heq =>
    rw [heq] at hp
    rw [parseDec_two_head 'O' t (by decide) (by decide) (by decide) (by decide)] at hp
    exact Option.noConfusion hp
  · next t heq =>
    rw [heq] at hp
    rw [parseDec_two_head 'b' t (by decide) (by decide) (by decide) (by decide)] at hp
    exact Option.noConfusion hp
  · next t heq =>
    rw [heq] at hp
    rw [parseDec_two_head 'B' t (by decide) (by decide) (by decide) (by decide)] at hp
    exact Option.noConfusion hp
  · rw [hp]

theorem jsNumber_brl_example :
    jsNumberOfString "1080.00" =
      JSNum.fin (((digitsToNat ['1','0','8','0'] : ℚ) +
        (digitsToNat ['0','0'] : ℚ) / (10:ℚ) ^ (['0','0'].length)) * (10:ℚ) ^ (0:ℤ)) := rfl

theorem parseNumber_brl :
    parseNumber (JSVal.vstr "R$ 1.080,00") = JSNum.fin 1080 := by
  have ht : transformBRL "R$ 1.080,00" = "1080.00" := by decide
  show orZero (jsNumberOfString (transformBRL "R$ 1.080,00")) = JSNum.fin 1080
  rw [ht, jsNumber_brl_example]
  have h1 : digitsToNat ['1','0','8','0'] = 1080 := by decide
  have h2 : digitsToNat ['0','0'] = 0 := by decide
  rw [h1, h2]
  show JSNum.fin _ = JSNum.fin _
  norm_num

/-! ## C2 -/

/-- C2 counterexample: the claim's “parses base-10, returning 0 if the result
is not a valid number” predicts `parseNumber("0x10") == 0`, but the code uses
JavaScript `Number()`, which accepts the hexadecimal literal: the code
returns 16 where the claimed base-10 reading returns 0. -/
theorem c2_counterexample :
    specParseNumber (JSVal.vstr "0x10") = JSNum.fin 0 ∧
    parseNumber (JSVal.vstr "0x10") = JSNum.fin 16 ∧
    JSNum.fin (0 : ℚ) ≠ JSNum.fin 16 := by
  refine ⟨by decide, ?_, by decide⟩
  have ht : transformBRL "0x10" = "0x10" := by decide
  show orZero (jsNumberOfString (transformBRL "0x10")) = JSNum.fin 16
  rw [ht]
  have h0 : jsNumberOfString "0x10" = JSNum.fin ((16 : ℕ) : ℚ) := rfl
  rw [h0]
  norm_num
  rfl

/-- C2 (amended): `parseNumber` returns a non-NaN number unchanged and 0 for
NaN/null/absent input; for text it strips `R$` case-insensitively, strips all
whitespace (including non-breaking space), strips every `.`, replaces the
first `,` with `.`, then converts with JavaScript `Number()` semantics —
base-10 decimal literals (exactly honoured, per the last conjunct) plus the
other literal forms `Number()` accepts (hex/octal/binary prefixes and
`Infinity`) — returning 0 when the conversion yields NaN; in particular
`parseNumber("R$ 1.080,00") == 1080`, `parseNumber("") == 0`,
`parseNumber(null) == 0`, and `parseNumber(42) == 42`. -/
theorem parseNumber_spec :
    (∀ q : ℚ, parseNumber (JSVal.vnum (JSNum.fin q)) = JSNum.fin q) ∧
    parseNumber (JSVal.vnum JSNum.nan) = JSNum.fin 0 ∧
    parseNumber (JSVal.vnum JSNum.inf) = JSNum.inf ∧
    parseNumber (JSVal.vnum JSNum.ninf) = JSNum.ninf ∧
    parseNumber JSVal.vnull = JSNum.fin 0 ∧
    parseNumber JSVal.vundef = JSNum.fin 0 ∧
    (∀ s : String, parseNumber (JSVal.vstr s) = orZero (jsNumberOfString (transformBRL s))) ∧
    (∀ (s : String) (q : ℚ), parseDec (transformBRL s).data = some q →
      parseNumber (JSVal.vstr s) = JSNum.fin q) ∧
    parseNumber (JSVal.vstr "R$ 1.080,00") = JSNum.fin 1080 ∧
    parseNumber (JSVal.vstr "") = JSNum.fin 0 ∧
    parseNumber (JSVal.vnum (JSNum.fin 42)) = JSNum.fin 42 := by
  refine ⟨fun q => rfl, rfl, rfl, rfl, rfl, rfl, fun s => rfl, ?_,
    parseNumber_brl, by decide, by decide⟩
  intro s q hp
  have h := jsNumber_of_parseDec (transformBRL s) q (transformBRL_no_ws s) hp
  show orZero (jsNumberOfString (transformBRL s)) = JSNum.fin q
  rw [h]
  rfl

/-- Witness for `parseNumber_spec` at the concrete input `"7"`. -/
theorem parseNumber_spec_witness :
    parseDec (transformBRL "7").data = some ((7:ℚ) * (10:ℚ) ^ (0:ℤ)) ∧
    parseNumber (JSVal.vstr "7") = JSNum.fin ((7:ℚ) * (10:ℚ) ^ (0:ℤ)) := by
  have hstruct : parseDec (transformBRL "7").data =
      some ((digitsToNat ['7'] : ℚ) * (10:ℚ) ^ (0:ℤ)) := rfl
  have h7 : ((digitsToNat ['7'] : ℕ) : ℚ) = 7 := by
    rw [show digitsToNat ['7'] = 7 from by decide]; norm_num
  have hq : parseDec (transformBRL "7").data = some ((7:ℚ) * (10:ℚ) ^ (0:ℤ)) := by
    rw [hstruct, h7]
  exact ⟨hq, parseNumber_spec.2.2.2.2.2.2.2.1 "7" ((7:ℚ) * (10:ℚ) ^ (0:ℤ)) hq⟩

theorem matchDMY_some_iff (s r : String) :
    matchDMY s = some r ↔ ∃ a b c d e f g h : Char,
      ([a,b,c,d,e,f,g,h].all Char.isDigit = true) ∧
      s.data = [a,b,'/',c,d,'/',e,f,g,h] ∧
      r = ⟨[e,f,g,h,'-',c,d,'-',a,b]⟩ := by
  constructor
  · intro hsome
    unfold matchDMY at hsome
    split at hsome
    · next a b c d e f g h heq =>
      split at hsome
      · next hdig =>
        refine ⟨a, b, c, d, e, f, g, h, hdig, heq, ?_⟩
        exact (Option.some.injEq .. ▸ hsome).symm
      · exact Option.noConfusion hsome
    · exact Option.noConfusion hsome
  · rintro ⟨a, b, c, d, e, f, g, h, hdig, hs, hr⟩
    obtain ⟨cs⟩ := s
    simp only at hs
    subst hs
    have : matchDMY ⟨[a,b,'/',c,d,'/',e,f,g,h]⟩ =
        if [a,b,c,d,e,f,g,h].all Char.isDigit then
          some (⟨[e,f,g,h,'-',c,d,'-',a,b]⟩ : String) else none := rfl
    rw [this, if_pos hdig, hr]

/-! ## C3 -/

/-- C3 counterexample: the claim characterizes the result by the text before
the first space of the raw input, but the code trims first
(`String(v).trim().split(" ")[0]`): on `" 03/11/2025"` (leading space) the
claim's reading (`specParseDateISO`) yields `null` — the text before the
first space is empty — while `parseDateISO` returns `"2025-11-03"`. -/
theorem c3_counterexample :
    parseDateISO (JSVal.vstr " 03/11/2025") = some "2025-11-03" ∧
    specParseDateISO (JSVal.vstr " 03/11/2025") = none := by
  constructor
  · decide
  · decide

/-- C3 (amended): for every input, `parseDateISO` returns the rearranged
`YYYY-MM-DD` string exactly when the text before the first space of the
TRIMMED, stringified input matches two digits, `/`, two digits, `/`, four
digits — any time component after the space being ignored — and `null`
otherwise, including for empty or absent input.  No calendar validity is
checked: `"32/13/2025"` is rearranged to `"2025-13-32"`, not rejected; and
`parseDateISO("03/11/2025 22:29:54") == "2025-11-03"`,
`parseDateISO("bad") == null`, `parseDateISO(null) == null`. -/
theorem parseDateISO_spec :
    (∀ (v : JSVal) (r : String), parseDateISO v = some r ↔ ∃ a b c d e f g h : Char,
      ([a,b,c,d,e,f,g,h].all Char.isDigit = true) ∧
      (firstTok (jsTrimStr (jsToString v))).data = [a,b,'/',c,d,'/',e,f,g,h] ∧
      r = ⟨[e,f,g,h,'-',c,d,'-',a,b]⟩) ∧
    parseDateISO (JSVal.vstr "03/11/2025 22:29:54") = some "2025-11-03" ∧
    parseDateISO (JSVal.vstr "bad") = none ∧
    parseDateISO JSVal.vnull = none ∧
    parseDateISO (JSVal.vstr "32/13/2025") = some "2025-13-32" := by
  refine ⟨?_, by decide, by decide, by decide, by decide⟩
  intro v r
  cases htr : jsTruthy v with
  | true =>
    simp only [parseDateISO, htr, if_true]
    exact matchDMY_some_iff _ r
  | false =>
    simp only [parseDateISO, htr, Bool.false_eq_true, if_false]
    constructor
    · intro h; exact Option.noConfusion h
    · rintro ⟨a, b, c, d, e, f, g, h, hdig, hs, hr⟩
      exfalso
      cases v with
      | vstr s =>
        have hs0 : s = "" := by
          by_contra hne
          simp [jsTruthy, hne] at htr
        subst hs0
        rw [show (firstTok (jsTrimStr (jsToString (JSVal.vstr "")))).data = [] from by decide] at hs
        exact List.noConfusion hs
      | vnull =>
        rw [show (firstTok (jsTrimStr (jsToString JSVal.vnull))).data = ['n','u','l','l'] from by decide] at hs
        simp at hs
      | vundef =>
        rw [show (firstTok (jsTrimStr (jsToString JSVal.vundef))).data =
          ['u','n','d','e','f','i','n','e','d'] from by decide] at hs
        simp at hs
      | vnum n =>
        cases n with
        | nan =>
          rw [show (firstTok (jsTrimStr (jsToString (JSVal.vnum JSNum.nan)))).data =
            ['N','a','N'] from by decide] at hs
          simp at hs
        | inf => simp [jsTruthy] at htr
        | ninf => simp [jsTruthy] at htr
        | fin q =>
          have hq : q = 0 := by
            by_contra hne
            simp [jsTruthy, hne] at htr
          subst hq
          rw [show (firstTok (jsTrimStr (jsToString (JSVal.vnum (JSNum.fin 0))))).data =
            ['0'] from by decide] at hs
          simp at hs

/-! ## C4 -/

theorem canonicalHeaderName_eq_rules (raw : String) :
    canonicalHeaderName raw = headerRuleSpec raw := by
  unfold canonicalHeaderName headerRuleSpec headerRules
  simp only [firstMatchWins]
  simp only [Bool.or_eq_true, beq_iff_eq]
  by_cases h1 : containsSub (norm raw) "DATA APOSTA" = true
  · simp [h1]
  · simp only [Bool.not_eq_true] at h1
    simp only [h1, Bool.false_eq_true, if_false]
    by_cases h2 : norm raw = "LUCRO"
    · simp [h2]
    · simp only [h2, if_false]
      by_cases h3 : norm raw = "STAKE"
      · simp [h3]
      · simp only [h3, if_false]
        by_cases h4 : norm raw = "CASA" ∨ containsSub (norm raw) "BOOK" = true
        · simp [h4]
        · simp only [h4, if_false]
          by_cases h5 : norm raw = "ESPORTE" ∨ norm raw = "ESPORTES"
          · simp [h5]
          · simp only [h5, if_false]
            by_cases h6 : containsSub (norm raw) "DATA EVENTO" = true ∨
                containsSub (norm raw) "DATA JOGO" = true
            · simp [h6]
            · simp only [h6, if_false]
              by_cases h7 : norm raw = "EVENTO" ∨ norm raw = "PARTIDA" ∨
                  containsSub (norm raw) "MATCH" = true
              · simp [or_assoc, h7]
              · simp [or_assoc, h7]

/-- C4: header canonicalization first normalizes (uppercase, strip
diacritics, collapse whitespace runs to one space, trim) and then applies
the seven rules in fixed priority order with first match winning
(`headerRuleSpec` spells out exactly those rules over `norm`), falling back
to the original non-normalized text trimmed only; the function is total and
always returns either one of the seven canonical names or the trimmed
original. -/
theorem canonicalHeaderName_spec (raw : String) :
    canonicalHeaderName raw = headerRuleSpec raw ∧
    (canonicalHeaderName raw = "DATA APOSTA" ∨ canonicalHeaderName raw = "LUCRO" ∨
     canonicalHeaderName raw = "STAKE" ∨ canonicalHeaderName raw = "CASA" ∨
     canonicalHeaderName raw = "ESPORTE" ∨ canonicalHeaderName raw = "DATA EVENTO" ∨
     canonicalHeaderName raw = "EVENTO" ∨ canonicalHeaderName raw = jsTrimStr raw) := by
  refine ⟨canonicalHeaderName_eq_rules raw, ?_⟩
  unfold canonicalHeaderName
  simp only []
  split_ifs <;> simp

/-! ## C7 -/

/-- C7: with green meaning `lucroTotal > 1e-6` and red meaning
`lucroTotal < -1e-6` (entries within epsilon of zero are neither),
`greenPercent + redPercent == 100` whenever at least one entry is green or
red, and both are 0 when no entry is green or red. -/
theorem buildStats_green_red (data : List NormalizedRecord) (grupos : List Grupo) :
    ((∃ g ∈ grupos, isGreen g = true ∨ isRed g = true) →
      jadd (buildStatsFromData data grupos).overview.greenPercent
        (buildStatsFromData data grupos).overview.redPercent = JSNum.fin 100) ∧
    ((∀ g ∈ grupos, isGreen g = false ∧ isRed g = false) →
      (buildStatsFromData data grupos).overview.greenPercent = JSNum.fin 0 ∧
      (buildStatsFromData data grupos).overview.redPercent = JSNum.fin 0) := by
  simp only [buildStatsFromData]
  constructor
  · rintro ⟨g, hg, hgr⟩
    have hpos : 0 < (grupos.filter isGreen).length + (grupos.filter isRed).length := by
      rcases hgr with h | h
      · have : g ∈ grupos.filter isGreen := List.mem_filter.mpr ⟨hg, h⟩
        have := List.length_pos.mpr (List.ne_nil_of_mem this)
        omega
      · have : g ∈ grupos.filter isRed := List.mem_filter.mpr ⟨hg, h⟩
        have := List.length_pos.mpr (List.ne_nil_of_mem this)
        omega
    rw [if_pos hpos, if_pos hpos]
    set G := (grupos.filter isGreen).length
    set R := (grupos.filter isRed).length
    have hq : ((G : ℚ) + (R : ℚ)) ≠ 0 := by
      have : (0 : ℚ) < (G : ℚ) + (R : ℚ) := by
        push_cast
        exact_mod_cast hpos
      linarith
    have hne : ¬ ((G + R : ℕ) : ℚ) = 0 := by push_cast; exact hq
    simp only [jdiv, jmul, jadd, if_neg hne]
    congr 1
    field_simp
    push_cast
    ring
  · intro hall
    have hG : grupos.filter isGreen = [] := by
      rw [List.filter_eq_nil]
      intro g hg
      simp [(hall g hg).1]
    have hR : grupos.filter isRed = [] := by
      rw [List.filter_eq_nil]
      intro g hg
      simp [(hall g hg).2]
    rw [hG, hR]
    simp

/-- Witness for `buildStats_green_red` at one green entry. -/
theorem buildStats_green_red_witness :
    (∃ g ∈ [(⟨"d", "op", "ev", "es", JSNum.fin 1, JSNum.fin 1⟩ : Grupo)],
        isGreen g = true ∨ isRed g = true) ∧
    jadd (buildStatsFromData [] [⟨"d", "op", "ev", "es", JSNum.fin 1, JSNum.fin 1⟩]).overview.greenPercent
      (buildStatsFromData [] [⟨"d", "op", "ev", "es", JSNum.fin 1, JSNum.fin 1⟩]).overview.redPercent =
      JSNum.fin 100 := by
  have hg : isGreen (⟨"d", "op", "ev", "es", JSNum.fin 1, JSNum.fin 1⟩ : Grupo) = true := by
    simp only [isGreen, epsNum, jlt, decide_eq_true_eq]
    norm_num
  have hex : ∃ g ∈ [(⟨"d", "op", "ev", "es", JSNum.fin 1, JSNum.fin 1⟩ : Grupo)],
      isGreen g = true ∨ isRed g = true := ⟨_, by simp, Or.inl hg⟩
  exact ⟨hex, (buildStats_green_red [] _).1 hex⟩

/-! ## Association-list grouping lemmas -/

section GroupLemmas

variable {α K β : Type} [DecidableEq K]

theorem lookupKey_cons (k a : K) (b : β) (t : List (K × β)) :
    lookupKey k ((a, b) :: t) = if a = k then some b else lookupKey k t := rfl

theorem updAt_cons (k₂ a : K) (b : β) (f : β → β) (t : List (K × β)) :
    updAt k₂ f ((a, b) :: t) =
      (if a = k₂ then (a, f b) else (a, b)) :: updAt k₂ f t := by
  by_cases h : a = k₂ <;> simp [updAt, h]

theorem lookupKey_append (k : K) (l₁ l₂ : List (K × β)) :
    lookupKey k (l₁ ++ l₂) =
      match lookupKey k l₁ with
      | some b => some b
      | none => lookupKey k l₂ := by
  induction l₁ with
  | nil => simp [lookupKey]
  | cons p t ih =>
    obtain ⟨a, b⟩ := p
    by_cases hp : a = k
    · simp [lookupKey_cons, hp]
    · simp only [List.cons_append, lookupKey_cons, if_neg hp, ih]

theorem lookupKey_updAt (k k₂ : K) (f : β → β) (l : List (K × β)) :
    lookupKey k (updAt k₂ f l) =
      if k₂ = k then (lookupKey k l).map f else lookupKey k l := by
  induction l with
  | nil => by_cases h : k₂ = k <;> simp [lookupKey, updAt, h]
  | cons p t ih =>
    obtain ⟨a, b⟩ := p
    rw [updAt_cons]
    by_cases ha2 : a = k₂
    · subst ha2
      by_cases hak : a = k
      · subst hak
        simp [lookupKey_cons, ih]
      · simp [lookupKey_cons, hak, ih]
    · by_cases hak : a = k
      · subst hak
        have hne : ¬ k₂ = a := fun h => ha2 h.symm
        simp [lookupKey_cons, hne, ha2]
      · simp [lookupKey_cons, hak, ha2, ih]

theorem updAt_keys (k : K) (f : β → β) (l : List (K × β)) :
    (updAt k f l).map Prod.fst = l.map Prod.fst := by
  induction l with
  | nil => rfl
  | cons p t ih =>
    obtain ⟨a, b⟩ := p
    rw [updAt_cons]
    by_cases h : a = k <;> simp [h, ih]

theorem lookupKey_none_iff (k : K) (l : List (K × β)) :
    lookupKey k l = none ↔ k ∉ l.map Prod.fst := by
  induction l with
  | nil => simp [lookupKey]
  | cons p t ih =>
    obtain ⟨a, b⟩ := p
    by_cases hp : a = k
    · simp [lookupKey_cons, hp]
    · simp [lookupKey_cons, hp, ih, Ne.symm hp]

end GroupLemmas

section GroupLemmas2

variable {α K β : Type} [DecidableEq K]
variable (key : α → K) (init : α → β) (upd : β → α → β)

theorem jsGroup_append_one (l : List α) (a : α) :
    jsGroup key init upd (l ++ [a]) =
      jsGroupStep key init upd (jsGroup key init upd l) a := by
  simp [jsGroup, List.foldl_append]

theorem jsGroup_keys_nodup (l : List α) :
    ((jsGroup key init upd l).map Prod.fst).Nodup := by
  induction l using List.reverseRecOn with
  | nil => simp [jsGroup]
  | append_singleton l a ih =>
    rw [jsGroup_append_one]
    unfold jsGroupStep
    cases h : lookupKey (key a) (jsGroup key init upd l) with
    | some b => rw [updAt_keys]; exact ih
    | none =>
      rw [List.map_append]
      simp only [List.map_cons, List.map_nil]
      rw [List.nodup_append]
      refine ⟨ih, List.nodup_singleton _, ?_⟩
      intro x hx
      simp only [List.mem_singleton]
      intro hxa
      subst hxa
      exact (lookupKey_none_iff _ _).mp h hx

theorem lookupKey_jsGroup (k : K) (l : List α) :
    lookupKey k (jsGroup key init upd l) = aggClass key init upd k l := by
  induction l using List.reverseRecOn with
  | nil => simp [jsGroup, lookupKey, aggClass]
  | append_singleton l a ih =>
    rw [jsGroup_append_one]
    unfold jsGroupStep
    by_cases hk : key a = k
    · subst hk
      have hfa : List.filter (fun x => decide (key x = key a)) (l ++ [a]) =
          List.filter (fun x => decide (key x = key a)) l ++ [a] := by
        simp [List.filter_append]
      cases h : lookupKey (key a) (jsGroup key init upd l) with
      | some b =>
        have hagg : aggClass key init upd (key a) l = some b := by rw [← ih, h]
        rw [lookupKey_updAt, if_pos rfl, h]
        unfold aggClass at hagg ⊢
        rw [hfa]
        split at hagg
        · exact Option.noConfusion hagg
        · next h₀ t₀ hcls =>
          rw [hcls]
          show Option.map (fun b => upd b a) (some b) =
            some (List.foldl upd (init h₀) (h₀ :: (t₀ ++ [a])))
          rw [show h₀ :: (t₀ ++ [a]) = (h₀ :: t₀) ++ [a] from (List.cons_append ..).symm]
          rw [List.foldl_append]
          simp only [Option.some.injEq] at hagg
          simp [hagg, List.foldl_cons]
      | none =>
        have hagg : aggClass key init upd (key a) l = none := by rw [← ih, h]
        rw [lookupKey_append, h]
        unfold aggClass at hagg ⊢
        rw [hfa]
        split at hagg
        · next hcls =>
          rw [hcls]
          simp [lookupKey_cons, List.foldl_cons]
        · exact Option.noConfusion hagg
    · have step1 :
          lookupKey k
            (match lookupKey (key a) (jsGroup key init upd l) with
             | some _ => updAt (key a) (fun b => upd b a) (jsGroup key init upd l)
             | none => jsGroup key init upd l ++ [(key a, upd (init a) a)]) =
          lookupKey k (jsGroup key init upd l) := by
        cases h : lookupKey (key a) (jsGroup key init upd l) with
        | some b => rw [lookupKey_updAt, if_neg hk]
        | none =>
          rw [lookupKey_append]
          cases h₂ : lookupKey k (jsGroup key init upd l) with
          | some b => rfl
          | none => simp [lookupKey_cons, hk, lookupKey]
      rw [step1, ih]
      have hfa : List.filter (fun x => decide (key x = k)) (l ++ [a]) =
          List.filter (fun x => decide (key x = k)) l := by
        simp [List.filter_append, List.filter_cons, hk]
      unfold aggClass
      rw [hfa]

end GroupLemmas2

section GroupLemmas3

variable {α K β : Type} [DecidableEq K]

theorem lookupKey_of_mem {k : K} {b : β} {l : List (K × β)}
    (hn : (l.map Prod.fst).Nodup) (hm : (k, b) ∈ l) : lookupKey k l = some b := by
  induction l with
  | nil => simp at hm
  | cons p t ih =>
    obtain ⟨a, c⟩ := p
    simp only [List.map_cons, List.nodup_cons] at hn
    rcases List.mem_cons.mp hm with h | h
    · injection h with h1 h2
      subst h1
      subst h2
      rw [lookupKey_cons, if_pos rfl]
    · have hak : ¬ a = k := by
        intro he
        subst he
        exact hn.1 (by
          have : (a, b) ∈ t := h
          exact List.mem_map_of_mem Prod.fst this)
      rw [lookupKey_cons, if_neg hak]
      exact ih hn.2 h

theorem mem_of_lookupKey {k : K} {b : β} {l : List (K × β)}
    (h : lookupKey k l = some b) : (k, b) ∈ l := by
  induction l with
  | nil => simp [lookupKey] at h
  | cons p t ih =>
    obtain ⟨a, c⟩ := p
    rw [lookupKey_cons] at h
    by_cases hak : a = k
    · rw [if_pos hak] at h
      subst hak
      obtain rfl : c = b := Option.some.injEq .. ▸ h
      exact List.mem_cons_self _ _
    · rw [if_neg hak] at h
      exact List.mem_cons_of_mem _ (ih h)

end GroupLemmas3

section GroupLemmas4

variable {α K β : Type} [DecidableEq K]

theorem updAt_of_not_mem {k : K} (f : β → β) {l : List (K × β)}
    (h : k ∉ l.map Prod.fst) : updAt k f l = l := by
  induction l with
  | nil => rfl
  | cons p t ih =>
    obtain ⟨a, c⟩ := p
    simp only [List.map_cons, List.mem_cons] at h
    push_neg at h
    rw [updAt_cons, if_neg (fun he => h.1 he.symm), ih h.2]

theorem lookupKey_decomp {k : K} {b : β} {l : List (K × β)}
    (h : lookupKey k l = some b) (hn : (l.map Prod.fst).Nodup) :
    ∃ l₁ l₂, l = l₁ ++ (k, b) :: l₂ ∧
      (∀ f : β → β, updAt k f l = l₁ ++ (k, f b) :: l₂) := by
  induction l with
  | nil => simp [lookupKey] at h
  | cons p t ih =>
    obtain ⟨a, c⟩ := p
    simp only [List.map_cons, List.nodup_cons] at hn
    rw [lookupKey_cons] at h
    by_cases hak : a = k
    · subst hak
      rw [if_pos rfl] at h
      obtain rfl : c = b := Option.some.injEq .. ▸ h
      refine ⟨[], t, by simp, fun f => ?_⟩
      rw [updAt_cons, if_pos rfl, updAt_of_not_mem f hn.1]
      simp
    · rw [if_neg hak] at h
      obtain ⟨l₁, l₂, hdec, hupd⟩ := ih h hn.2
      refine ⟨(a, c) :: l₁, l₂, by simp [hdec], fun f => ?_⟩
      rw [updAt_cons, if_neg hak, hupd f]
      simp

theorem jsum_append_one (xs : List JSNum) (x : JSNum) :
    jsum (xs ++ [x]) = jadd (jsum xs) x := by
  simp [jsum, List.foldl_append]

theorem jsum_jsGroup (key : α → K) (init : α → β) (upd : β → α → β)
    (μ : β → JSNum) (w : α → JSNum)
    (hupd : ∀ b a, μ (upd b a) = jadd (μ b) (w a))
    (hinit : ∀ a, μ (init a) = JSNum.fin 0) (l : List α) :
    jsum ((jsGroup key init upd l).map (fun p => μ p.2)) = jsum (l.map w) := by
  induction l using List.reverseRecOn with
  | nil => rfl
  | append_singleton l a ih =>
    rw [jsGroup_append_one]
    unfold jsGroupStep
    rw [List.map_append, List.map_cons, List.map_nil, jsum_append_one]
    cases h : lookupKey (key a) (jsGroup key init upd l) with
    | none =>
      rw [List.map_append, List.map_cons, List.map_nil, jsum_append_one]
      rw [hupd, hinit, ih]
      congr 1
      exact zero_add _
    | some b =>
      obtain ⟨l₁, l₂, hdec, hupdAt⟩ :=
        lookupKey_decomp h (jsGroup_keys_nodup key init upd l)
      rw [hupdAt (fun b => upd b a)]
      rw [hdec] at ih
      rw [← ih]
      simp only [List.map_append, List.map_cons, jsum_eq_sum, List.sum_append,
        List.sum_cons, hupd, jadd_eq_add]
      abel
end GroupLemmas4

/-! ## Plain-object grouping: bridging lemmas

The plain-`{}` groupings differ from the `Map` grouping only in dropping the
records whose key collides with an inherited `Object.prototype` property
(`jsObjGroup_eq`), and the day accumulator agrees with a presence-test
grouping as long as every stored value stays a finite number and no key is
inherited (`dayGroup_eq`) — the reachable regime of the handlers. -/

theorem isFinNum_iff (n : JSNum) : isFinNum n = true ↔ ∃ q : ℚ, n = JSNum.fin q := by
  cases n <;> simp [isFinNum]

section FactorLemmas

variable {α α₂ K β γ : Type} [DecidableEq K]

theorem lookupKey_map_val (π : β → γ) (k : K) (l : List (K × β)) :
    lookupKey k (l.map (Prod.map id π)) = (lookupKey k l).map π := by
  induction l with
  | nil => rfl
  | cons p t ih =>
    obtain ⟨a, b⟩ := p
    by_cases hak : a = k
    · simp [lookupKey_cons, Prod.map, hak]
    · simp [lookupKey_cons, Prod.map, hak, ih]

theorem updAt_map_val (π : β → γ) (k : K) (f : β → β) (g : γ → γ)
    (hfg : ∀ b, π (f b) = g (π b)) (l : List (K × β)) :
    (updAt k f l).map (Prod.map id π) = updAt k g (l.map (Prod.map id π)) := by
  induction l with
  | nil => rfl
  | cons p t ih =>
    obtain ⟨a, b⟩ := p
    by_cases hak : a = k
    · simp [updAt_cons, Prod.map, hak, hfg, ih]
    · simp [updAt_cons, Prod.map, hak, ih]

theorem jsGroup_factor (key : α → K) (init : α → β) (upd : β → α → β)
    (ρ : α → α₂) (key₂ : α₂ → K) (init₂ : α₂ → γ) (upd₂ : γ → α₂ → γ) (π : β → γ)
    (hkey : ∀ a, key a = key₂ (ρ a))
    (hinit : ∀ a, π (init a) = init₂ (ρ a))
    (hupd : ∀ b a, π (upd b a) = upd₂ (π b) (ρ a)) (l : List α) :
    (jsGroup key init upd l).map (Prod.map id π) =
      jsGroup key₂ init₂ upd₂ (l.map ρ) := by
  induction l using List.reverseRecOn with
  | nil => rfl
  | append_singleton l a ih =>
    rw [jsGroup_append_one, List.map_append, List.map_cons, List.map_nil,
      jsGroup_append_one]
    unfold jsGroupStep
    rw [← ih, lookupKey_map_val, ← hkey]
    cases h : lookupKey (key a) (jsGroup key init upd l) with
    | none =>
      simp only [Option.map_none]
      rw [List.map_append]
      simp [Prod.map, hkey, hinit, hupd]
    | some b =>
      simp only [Option.map_some]
      exact updAt_map_val π (key a) _ _ (fun b₀ => hupd b₀ a) _

end FactorLemmas

section ObjGroupLemmas

variable {α β : Type}

theorem updAt_congr {K : Type} [DecidableEq K] {k : K} {b : β} {l : List (K × β)}
    (h : lookupKey k l = some b) (hn : (l.map Prod.fst).Nodup)
    (f g : β → β) (hfg : f b = g b) : updAt k f l = updAt k g l := by
  obtain ⟨l₁, l₂, _, hupd⟩ := lookupKey_decomp h hn
  rw [hupd f, hupd g, hfg]

theorem jsObjGroup_foldl_eq (key : α → String) (init : α → β) (upd : β → α → β) :
    ∀ (l : List α) (acc : List (String × β)),
      (∀ k ∈ acc.map Prod.fst, k ∉ protoProps) →
      l.foldl (jsObjStep key init upd) acc =
        (l.filter (fun a => key a ∉ protoProps)).foldl (jsGroupStep key init upd) acc := by
  intro l
  induction l with
  | nil => intro acc _; rfl
  | cons a t ih =>
    intro acc hacc
    by_cases hk : key a ∈ protoProps
    · have hnone : lookupKey (key a) acc = none := by
        rw [lookupKey_none_iff]
        intro hmem
        exact hacc _ hmem hk
      have hstep : jsObjStep key init upd acc a = acc := by
        unfold jsObjStep
        rw [hnone]
        exact if_pos hk
      rw [List.foldl_cons, hstep, List.filter_cons_of_neg (by simpa using hk)]
      exact ih acc hacc
    · have hstep : jsObjStep key init upd acc a = jsGroupStep key init upd acc a := by
        unfold jsObjStep jsGroupStep
        cases h : lookupKey (key a) acc with
        | some b => rfl
        | none => exact if_neg hk
      rw [List.foldl_cons, hstep, List.filter_cons_of_pos (by simpa using hk),
        List.foldl_cons]
      refine ih _ ?_
      intro k₂ hk₂
      unfold jsGroupStep at hk₂
      cases h : lookupKey (key a) acc with
      | some b =>
        rw [h] at hk₂
        rw [updAt_keys] at hk₂
        exact hacc _ hk₂
      | none =>
        rw [h] at hk₂
        rw [List.map_append, List.mem_append] at hk₂
        rcases hk₂ with hk₂ | hk₂
        · exact hacc _ hk₂
        · simp only [List.map_cons, List.map_nil, List.mem_singleton] at hk₂
          subst hk₂
          exact hk

theorem jsObjGroup_eq (key : α → String) (init : α → β) (upd : β → α → β)
    (l : List α) :
    jsObjGroup key init upd l =
      jsGroup key init upd (l.filter (fun a => key a ∉ protoProps)) := by
  unfold jsObjGroup jsGroup
  exact jsObjGroup_foldl_eq key init upd l [] (by simp)

theorem keys_map_val {β₂ : Type} (π : β → β₂) (l : List (String × β)) :
    (l.map (Prod.map id π)).map Prod.fst = l.map Prod.fst := by
  rw [List.map_map]
  rfl

theorem jsGroupStep_eq_some {K : Type} [DecidableEq K] (key : α → K) (init : α → β)
    (upd : β → α → β) (acc : List (K × β)) (a : α) {b : β}
    (h : lookupKey (key a) acc = some b) :
    jsGroupStep key init upd acc a = updAt (key a) (fun x => upd x a) acc := by
  unfold jsGroupStep
  rw [h]

theorem jsGroupStep_eq_none {K : Type} [DecidableEq K] (key : α → K) (init : α → β)
    (upd : β → α → β) (acc : List (K × β)) (a : α)
    (h : lookupKey (key a) acc = none) :
    jsGroupStep key init upd acc a = acc ++ [(key a, upd (init a) a)] := by
  unfold jsGroupStep
  rw [h]

end ObjGroupLemmas

theorem dayStep_eq_some {acc : List (String × JSVal)} {k : String} {v : JSNum}
    {x : JSVal} (h : lookupKey k acc = some x) :
    dayStep acc k v =
      if jsTruthy x then updAt k (fun y => jsPlusNum y v) acc
      else updAt k (fun _ => jsPlusNum (JSVal.vnum (JSNum.fin 0)) v) acc := by
  unfold dayStep
  rw [h]

theorem dayStep_eq_none {acc : List (String × JSVal)} {k : String} {v : JSNum}
    (h : lookupKey k acc = none) :
    dayStep acc k v =
      if k = "__proto__" then acc
      else if k ∈ protoProps then
        acc ++ [(k, JSVal.vstr (protoRead k ++ numToString v))]
      else acc ++ [(k, jsPlusNum (JSVal.vnum (JSNum.fin 0)) v)] := by
  unfold dayStep
  rw [h]

theorem dayStep_foldl_eq :
    ∀ (l : List NormalizedRecord) (acc : List (String × JSNum)),
      (∀ d ∈ l, isFinNum d.lucro = true ∧ d.dataAposta ∉ protoProps) →
      (∀ p ∈ acc, isFinNum p.2 = true) →
      ((acc.map Prod.fst).Nodup) →
      l.foldl (fun m d => dayStep m d.dataAposta d.lucro)
          (acc.map (Prod.map id JSVal.vnum)) =
        (l.foldl (jsGroupStep (fun d : NormalizedRecord => d.dataAposta)
            (fun _ => JSNum.fin 0) (fun b d => jadd b d.lucro)) acc).map
          (Prod.map id JSVal.vnum) := by
  intro l
  induction l with
  | nil => intro acc _ _ _; rfl
  | cons d t ih =>
    intro acc hl hfin hnod
    have hdl : isFinNum d.lucro = true := (hl d (by simp)).1
    have hdp : d.dataAposta ∉ protoProps := (hl d (by simp)).2
    obtain ⟨qd, hqd⟩ := (isFinNum_iff _).mp hdl
    have hstep : dayStep (acc.map (Prod.map id JSVal.vnum)) d.dataAposta d.lucro =
        (jsGroupStep (fun d : NormalizedRecord => d.dataAposta) (fun _ => JSNum.fin 0)
          (fun b d => jadd b d.lucro) acc d).map (Prod.map id JSVal.vnum) := by
      cases h : lookupKey d.dataAposta acc with
      | none =>
        have h₂ : lookupKey d.dataAposta (acc.map (Prod.map id JSVal.vnum)) = none := by
          rw [lookupKey_map_val, h]
          rfl
        have hnp : ¬ d.dataAposta = "__proto__" := fun he =>
          hdp (he ▸ (by decide : ("__proto__" : String) ∈ protoProps))
        rw [dayStep_eq_none h₂,
          jsGroupStep_eq_none (fun d : NormalizedRecord => d.dataAposta)
            (fun _ => JSNum.fin 0) (fun b d => jadd b d.lucro) acc d h,
          if_neg hnp, if_neg hdp, List.map_append]
        rfl
      | some b =>
        obtain ⟨qb, rfl⟩ := (isFinNum_iff _).mp (hfin _ (mem_of_lookupKey h))
        have h₂ : lookupKey d.dataAposta (acc.map (Prod.map id JSVal.vnum)) =
            some (JSVal.vnum (JSNum.fin qb)) := by
          rw [lookupKey_map_val, h]
          rfl
        rw [dayStep_eq_some h₂,
          jsGroupStep_eq_some (fun d : NormalizedRecord => d.dataAposta)
            (fun _ => JSNum.fin 0) (fun b d => jadd b d.lucro) acc d h]
        by_cases hq : qb = 0
        · subst hq
          rw [if_neg (by decide)]
          have hnod₂ : ((acc.map (Prod.map id JSVal.vnum)).map Prod.fst).Nodup := by
            rw [keys_map_val]
            exact hnod
          rw [updAt_congr h₂ hnod₂ _ (fun y => jsPlusNum y d.lucro) rfl]
          exact (updAt_map_val JSVal.vnum d.dataAposta _ _ (fun b => rfl) acc).symm
        · rw [if_pos (by simp [jsTruthy, hq])]
          exact (updAt_map_val JSVal.vnum d.dataAposta _ _ (fun b => rfl) acc).symm
    rw [List.foldl_cons, List.foldl_cons, hstep]
    refine ih _ (fun d₂ hd₂ => hl d₂ (by simp [hd₂])) ?_ ?_
    · intro p hp
      cases h : lookupKey d.dataAposta acc with
      | some b =>
        rw [jsGroupStep_eq_some (fun d : NormalizedRecord => d.dataAposta)
            (fun _ => JSNum.fin 0) (fun b d => jadd b d.lucro) acc d h] at hp
        unfold updAt at hp
        obtain ⟨p₀, hp₀, hpe⟩ := List.mem_map.mp hp
        by_cases hpk : p₀.1 = d.dataAposta
        · rw [if_pos hpk] at hpe
          subst hpe
          obtain ⟨q₀, hq₀⟩ := (isFinNum_iff _).mp (hfin _ hp₀)
          simp [hq₀, hqd, jadd, isFinNum]
        · rw [if_neg hpk] at hpe
          subst hpe
          exact hfin _ hp₀
      | none =>
        rw [jsGroupStep_eq_none (fun d : NormalizedRecord => d.dataAposta)
            (fun _ => JSNum.fin 0) (fun b d => jadd b d.lucro) acc d h,
          List.mem_append] at hp
        rcases hp with hp | hp
        · exact hfin _ hp
        · rw [List.mem_singleton] at hp
          subst hp
          simp [hqd, jadd, isFinNum]
    · cases h : lookupKey d.dataAposta acc with
      | some b =>
        rw [jsGroupStep_eq_some (fun d : NormalizedRecord => d.dataAposta)
            (fun _ => JSNum.fin 0) (fun b d => jadd b d.lucro) acc d h,
          updAt_keys]
        exact hnod
      | none =>
        rw [jsGroupStep_eq_none (fun d : NormalizedRecord => d.dataAposta)
            (fun _ => JSNum.fin 0) (fun b d => jadd b d.lucro) acc d h,
          List.map_append]
        simp only [List.map_cons, List.map_nil]
        rw [List.nodup_append]
        refine ⟨hnod, List.nodup_singleton _, ?_⟩
        intro x hx
        simp only [List.mem_singleton]
        intro hxa
        subst hxa
        exact (lookupKey_none_iff _ _).mp h hx

theorem dayGroup_eq {l : List NormalizedRecord}
    (h : ∀ d ∈ l, isFinNum d.lucro = true ∧ d.dataAposta ∉ protoProps) :
    dayGroup l = (jsGroup (fun d : NormalizedRecord => d.dataAposta)
        (fun _ => JSNum.fin 0) (fun b d => jadd b d.lucro) l).map
      (Prod.map id JSVal.vnum) := by
  unfold dayGroup jsGroup
  exact dayStep_foldl_eq l [] h (by simp) (by simp)

/-! ## C6 -/

/-- C6 (amended): the sum of `lucro` over the `porCasa` breakdown groups
equals the sum of `lucro` over exactly those records whose `casa` is
non-empty AND is not the name of a property inherited from
`Object.prototype`: empty-casa records are skipped by an explicit guard,
while a `casa` colliding with an inherited property finds a truthy value in
the plain-object falsiness test, skips the init, mutates the inherited
object and never becomes an own entry of `casaMap` — so it is silently
missing from `porCasa`.  Both kinds of excluded records still count in the
overview totals: `totalLucro` sums every record's `lucro`. -/
theorem porCasa_lucro_sum (data : List NormalizedRecord) (grupos : List Grupo) :
    jsum ((buildStatsFromData data grupos).porCasa.map (fun c => c.lucro)) =
      jsum ((data.filter (fun d => d.casa ≠ "" ∧ d.casa ∉ protoProps)).map
        (fun d => d.lucro)) ∧
    (buildStatsFromData data grupos).overview.totalLucro =
      jsum (data.map (fun d => d.lucro)) := by
  constructor
  · simp only [buildStatsFromData]
    rw [jsObjGroup_eq, List.map_map]
    have hcomp : ((fun c : CasaStat => c.lucro) ∘ (fun p : String × CasaAcc => finCasa p.2)) =
        fun p : String × CasaAcc => CasaAcc.lucro p.2 := rfl
    rw [hcomp]
    rw [jsum_jsGroup _ _ _ CasaAcc.lucro NormalizedRecord.lucro
      (fun b a => rfl) (fun a => rfl) _]
    rw [List.filter_filter]
    congr 1
    congr 1
    apply List.filter_congr
    intro d _
    simp only [Bool.decide_and, decide_not]
    exact Bool.and_comm _ _
  · rfl

/-- C6 counterexample: a record whose `casa` is `"constructor"` — an
inherited `Object.prototype` property — is non-empty, yet produces NO
`porCasa` entry at all, while its `lucro` still reaches the overview total;
the claimed equality `sum(porCasa[*].lucro) == sum(records.lucro where casa
is non-empty)` therefore fails on this record list. -/
theorem c6_counterexample :
    (⟨"2025-01-01", "OP", "constructor", "", "", "", JSNum.fin 1, JSNum.fin 7⟩ :
        NormalizedRecord).casa ≠ "" ∧
    (buildStatsFromData
        [⟨"2025-01-01", "OP", "constructor", "", "", "", JSNum.fin 1, JSNum.fin 7⟩]
        []).porCasa = [] ∧
    (buildStatsFromData
        [⟨"2025-01-01", "OP", "constructor", "", "", "", JSNum.fin 1, JSNum.fin 7⟩]
        []).overview.totalLucro ≠ JSNum.fin 0 := by
  refine ⟨by decide, by decide, ?_⟩
  have hv : (buildStatsFromData
      [⟨"2025-01-01", "OP", "constructor", "", "", "", JSNum.fin 1, JSNum.fin 7⟩]
      []).overview.totalLucro = JSNum.fin ((0 : ℚ) + 7) := rfl
  rw [hv]
  intro hcontra
  have : ((0 : ℚ) + 7) = 0 := JSNum.fin.inj hcontra
  norm_num at this

/-! ## C1 -/

theorem overviewRecords_drop_null (sheetName operadorQ fromQ toQ : String)
    (pre post : List RowObj) (r : RowObj)
    (hnull : parseDateISO (optVal (r "DATA APOSTA")) = none) :
    overviewRecords sheetName operadorQ fromQ toQ (pre ++ r :: post) =
      overviewRecords sheetName operadorQ fromQ toQ (pre ++ post) := by
  unfold overviewRecords
  rw [List.filterMap_append, List.filterMap_append, List.filterMap_cons, hnull]

theorem overviewAllRecords_drop_null (operadorQ fromQ toQ : String)
    (sheetsPre sheetsPost : List (String × List RowObj)) (nm : String)
    (rpre rpost : List RowObj) (r : RowObj)
    (hnull : parseDateISO (optVal (r "DATA APOSTA")) = none) :
    overviewAllRecords (sheetsPre ++ (nm, rpre ++ r :: rpost) :: sheetsPost) operadorQ fromQ toQ =
      overviewAllRecords (sheetsPre ++ (nm, rpre ++ rpost) :: sheetsPost) operadorQ fromQ toQ := by
  unfold overviewAllRecords
  rw [List.flatMap_append, List.flatMap_append, List.flatMap_cons, List.flatMap_cons]
  congr 2
  by_cases hop : operadorQ ≠ "" ∧ operadorOf nm ≠ operadorQ
  · simp only [if_pos hop]
  · simp only [if_neg hop]
    rw [List.filterMap_append, List.filterMap_append, List.filterMap_cons, hnull]

/-- C1: a sheet row whose `DATA APOSTA` cell does not parse (`parseDateISO`
null) contributes to no statistic whatsoever, in both the overview and the
overview-all pipelines: removing such a row changes neither the record list
(so it is dropped before record construction and entry grouping) nor the
complete statistics output (overview, lucroPorDia, porOperador, porCasa,
porEsporte), regardless of the operador/from/to filter parameters. -/
theorem nullDate_drops_row (sheetName operadorQ fromQ toQ : String)
    (pre post : List RowObj) (r : RowObj)
    (sheetsPre sheetsPost : List (String × List RowObj)) (nm : String)
    (rpre rpost : List RowObj)
    (hnull : parseDateISO (optVal (r "DATA APOSTA")) = none) :
    overviewRecords sheetName operadorQ fromQ toQ (pre ++ r :: post) =
      overviewRecords sheetName operadorQ fromQ toQ (pre ++ post) ∧
    overviewPipeline sheetName operadorQ fromQ toQ (pre ++ r :: post) =
      overviewPipeline sheetName operadorQ fromQ toQ (pre ++ post) ∧
    overviewAllRecords (sheetsPre ++ (nm, rpre ++ r :: rpost) :: sheetsPost) operadorQ fromQ toQ =
      overviewAllRecords (sheetsPre ++ (nm, rpre ++ rpost) :: sheetsPost) operadorQ fromQ toQ ∧
    overviewAllPipeline (sheetsPre ++ (nm, rpre ++ r :: rpost) :: sheetsPost) operadorQ fromQ toQ =
      overviewAllPipeline (sheetsPre ++ (nm, rpre ++ rpost) :: sheetsPost) operadorQ fromQ toQ := by
  have h1 := overviewRecords_drop_null sheetName operadorQ fromQ toQ pre post r hnull
  have h2 := overviewAllRecords_drop_null operadorQ fromQ toQ sheetsPre sheetsPost nm
    rpre rpost r hnull
  refine ⟨h1, ?_, h2, ?_⟩
  · unfold overviewPipeline; rw [h1]
  · unfold overviewAllPipeline; rw [h2]

/-- Witness for `nullDate_drops_row` at a concrete malformed row. -/
theorem nullDate_drops_row_witness :
    parseDateISO (optVal ((fun k => if k = "DATA APOSTA" then some "bad" else none) "DATA APOSTA")) = none ∧
    overviewPipeline "OP" "" "" "" [fun k => if k = "DATA APOSTA" then some "bad" else none] =
      overviewPipeline "OP" "" "" "" [] := by
  have h := nullDate_drops_row "OP" "" "" ""
    [] [] (fun k => if k = "DATA APOSTA" then some "bad" else none)
    [] [] "OP" [] [] (by decide)
  exact ⟨by decide, h.2.1⟩

/-! ### Idempotence of trimming, normalization and header canonicalization

`canonicalHeaderName` either returns one of the seven canonical names (each a
fixpoint) or falls back to `trim(raw)`; since `norm` begins by trimming,
`norm (trim s) = norm s` and the whole map is idempotent.  This lets C5 take
its `mainHeader` hypothesis in the form the code actually produces: the image
of some raw header row under `canonicalHeaderName`. -/

theorem dropWhile_ws_idem (l : List Char) :
    (l.dropWhile isJsSpace).dropWhile isJsSpace = l.dropWhile isJsSpace := by
  induction l with
  | nil => rfl
  | cons a t ih =>
    by_cases h : isJsSpace a
    · simp [List.dropWhile_cons, h, ih]
    · simp [List.dropWhile_cons, h]

theorem head_trimLeft_not_ws : ∀ {l : List Char} {a : Char} {t : List Char},
    trimLeftJs l = a :: t → isJsSpace a = false := by
  intro l
  induction l with
  | nil => intro a t h; simp [trimLeftJs] at h
  | cons b u ih =>
    intro a t h
    by_cases hb : isJsSpace b
    · rw [trimLeftJs, List.dropWhile_cons, if_pos hb] at h
      exact ih h
    · rw [trimLeftJs, List.dropWhile_cons, if_neg hb] at h
      obtain rfl : b = a := (List.cons.injEq .. ▸ h).1
      simpa using hb

theorem trimLeft_of_head_not_ws {l : List Char}
    (h : ∀ a ∈ l.head?, isJsSpace a = false) : trimLeftJs l = l := by
  cases l with
  | nil => rfl
  | cons a t =>
    rw [trimLeftJs, List.dropWhile_cons, if_neg]
    simp only [List.head?_cons, Option.mem_some_iff] at h
    simp [h a rfl]

theorem trimLeft_jsTrimL (l : List Char) : trimLeftJs (jsTrimL l) = jsTrimL l := by
  apply trimLeft_of_head_not_ws
  intro a ha
  unfold jsTrimL at ha
  rw [List.head?_reverse] at ha
  have hsuf := List.dropWhile_suffix (l := (trimLeftJs l).reverse) isJsSpace
  obtain ⟨pre, hpre⟩ := hsuf
  cases hC : (trimLeftJs l).reverse.dropWhile isJsSpace with
  | nil => rw [hC] at ha; simp at ha
  | cons c u =>
    rw [hC] at ha
    have h₁ : ((trimLeftJs l).reverse.dropWhile isJsSpace).getLast? =
        (trimLeftJs l).reverse.getLast? := by
      conv_rhs => rw [← hpre]
      rw [List.getLast?_append_of_ne_nil _ (by rw [hC]; simp)]
    rw [hC] at h₁
    rw [h₁, List.getLast?_reverse] at ha
    cases hA : trimLeftJs l with
    | nil => rw [hA] at ha; simp at ha
    | cons b v =>
      rw [hA] at ha
      simp only [List.head?_cons, Option.mem_some_iff] at ha
      subst ha
      exact head_trimLeft_not_ws hA

theorem jsTrimL_idem (l : List Char) : jsTrimL (jsTrimL l) = jsTrimL l := by
  conv_lhs => rw [jsTrimL, trimLeft_jsTrimL]
  rw [show (jsTrimL l).reverse = (trimLeftJs l).reverse.dropWhile isJsSpace by
    rw [jsTrimL, List.reverse_reverse]]
  rw [dropWhile_ws_idem, ← jsTrimL]

theorem jsTrimStr_idem (s : String) : jsTrimStr (jsTrimStr s) = jsTrimStr s := by
  unfold jsTrimStr
  simp [jsTrimL_idem]

theorem ws_clean_fix (c : Char) (h : isJsSpace c = true) :
    jsUpperChar c = c ∧ deaccent c = c ∧ isCombining c = false := by
  have hm : c ∈ jsSpaceChars := by simpa [isJsSpace] using h
  simp only [jsSpaceChars, List.mem_cons, List.mem_singleton] at hm
  rcases hm with rfl | rfl | rfl | rfl | rfl | rfl | rfl | rfl | rfl | hm <;>
    first
    | exact ⟨by decide, by decide, by decide⟩
    | (rcases hm with rfl | hm
       · exact ⟨by decide, by decide, by decide⟩
       · simp at hm)

theorem cleanList_append (x y : List Char) :
    cleanList (x ++ y) = cleanList x ++ cleanList y := by
  simp [cleanList]

theorem cleanList_of_ws {p : List Char} (h : ∀ c ∈ p, isJsSpace c = true) :
    cleanList p = p := by
  induction p with
  | nil => rfl
  | cons a t ih =>
    have ha := ws_clean_fix a (h a (by simp))
    have ht := ih (fun c hc => h c (List.mem_cons_of_mem _ hc))
    simp only [cleanList] at ht ⊢
    simp only [List.map_cons, List.filter_cons, ha.1, ha.2.2]
    rw [if_pos (by decide), List.map_cons, ha.2.1, ht]

theorem jsTrimL_cons_ws {c : Char} (h : isJsSpace c = true) (z : List Char) :
    jsTrimL (c :: z) = jsTrimL z := by
  unfold jsTrimL
  rw [show trimLeftJs (c :: z) = trimLeftJs z by
    rw [trimLeftJs, trimLeftJs, List.dropWhile_cons, if_pos h]]

theorem jsTrimL_append_space (z : List Char) :
    jsTrimL (z ++ [' ']) = jsTrimL z := by
  unfold jsTrimL
  rw [trimLeftJs, trimLeftJs, List.dropWhile_append]
  by_cases he : (z.dropWhile isJsSpace).isEmpty
  · rw [if_pos he]
    rw [List.isEmpty_iff] at he
    rw [he]
    rfl
  · rw [if_neg he]
    rw [List.reverse_append]
    rw [show ([' '] : List Char).reverse = [' '] from rfl]
    rw [show (([' '] : List Char) ++ (z.dropWhile isJsSpace).reverse).dropWhile isJsSpace
        = (z.dropWhile isJsSpace).reverse.dropWhile isJsSpace by
      rw [List.singleton_append, List.dropWhile_cons, if_pos (by decide)]]

theorem jsTrimL_collapse_cons_ws {w : Char} (hw : isJsSpace w = true) (x : List Char) :
    jsTrimL (collapseWs (w :: x)) = jsTrimL (collapseWs x) := by
  cases x with
  | nil =>
    rw [show collapseWs [w] = [' '] by rw [collapseWs, if_pos hw]]
    rfl
  | cons b t =>
    by_cases hb : isJsSpace b
    · rw [show collapseWs (w :: b :: t) = collapseWs (b :: t) by
        rw [collapseWs]
        simp [hw, hb]]
    · rw [show collapseWs (w :: b :: t) = ' ' :: collapseWs (b :: t) by
        rw [collapseWs]
        simp [hw, hb]]
      exact jsTrimL_cons_ws (by decide) _

theorem jsTrimL_collapse_ws_front {p : List Char} (hp : ∀ c ∈ p, isJsSpace c = true) :
    ∀ x : List Char, jsTrimL (collapseWs (p ++ x)) = jsTrimL (collapseWs x) := by
  induction p with
  | nil => intro x; rfl
  | cons w p' ih =>
    intro x
    rw [List.cons_append, jsTrimL_collapse_cons_ws (hp w (by simp))]
    exact ih (fun c hc => hp c (List.mem_cons_of_mem _ hc)) x

theorem collapseWs_append_ws {w : Char} (hw : isJsSpace w = true) :
    ∀ m : List Char, collapseWs (m ++ [w]) = collapseWs m ++ [' '] ∨
      collapseWs (m ++ [w]) = collapseWs m := by
  intro m
  induction m with
  | nil =>
    left
    rw [List.nil_append, show collapseWs [w] = [' '] by rw [collapseWs, if_pos hw]]
    rfl
  | cons a m' ih =>
    cases m' with
    | nil =>
      have hstep : collapseWs [a, w] =
          if isJsSpace a && isJsSpace w then collapseWs [w]
          else (if isJsSpace a then ' ' else a) :: collapseWs [w] := by
        simp only [collapseWs]
      have hw1 : collapseWs [w] = [' '] := by rw [collapseWs, if_pos hw]
      by_cases ha : isJsSpace a
      · right
        have h1 : collapseWs [a] = [' '] := by rw [collapseWs, if_pos ha]
        rw [show ([a] : List Char) ++ [w] = [a, w] from rfl, hstep,
          if_pos (by simp [ha, hw]), hw1, h1]
      · left
        have h1 : collapseWs [a] = [a] := by rw [collapseWs, if_neg ha]
        rw [show ([a] : List Char) ++ [w] = [a, w] from rfl, hstep,
          if_neg (by simp [ha]), hw1, h1, if_neg ha]
        rfl
    | cons b t =>
      have hstep : ∀ y : List Char, collapseWs (a :: b :: y) =
          if isJsSpace a && isJsSpace b then collapseWs (b :: y)
          else (if isJsSpace a then ' ' else a) :: collapseWs (b :: y) := by
        intro y
        rw [collapseWs]
      rw [show (a :: b :: t) ++ [w] = a :: b :: (t ++ [w]) from rfl]
      rw [hstep (t ++ [w]), hstep t]
      by_cases hab : isJsSpace a && isJsSpace b
      · rw [if_pos hab, if_pos hab]
        exact ih
      · rw [if_neg hab, if_neg hab]
        rcases ih with h | h
        · left
          rw [show b :: (t ++ [w]) = (b :: t) ++ [w] from rfl, h]
          rfl
        · right
          rw [show b :: (t ++ [w]) = (b :: t) ++ [w] from rfl, h]

theorem jsTrimL_collapse_ws_suffix {s : List Char} (hs : ∀ c ∈ s, isJsSpace c = true) :
    ∀ m : List Char, jsTrimL (collapseWs (m ++ s)) = jsTrimL (collapseWs m) := by
  induction s using List.reverseRecOn with
  | nil => intro m; rw [List.append_nil]
  | append_singleton s' w ih =>
    intro m
    rw [← List.append_assoc]
    rcases collapseWs_append_ws (hs w (by simp)) (m ++ s') with h | h
    · rw [h, jsTrimL_append_space]
      exact ih (fun c hc => hs c (by simp [hc])) m
    · rw [h]
      exact ih (fun c hc => hs c (by simp [hc])) m

theorem normList_jsTrimL (l : List Char) : normList (jsTrimL l) = normList l := by
  have hws1 : ∀ c ∈ l.takeWhile isJsSpace, isJsSpace c = true :=
    fun c hc => List.mem_takeWhile_imp hc
  have hws2 : ∀ c ∈ ((trimLeftJs l).reverse.takeWhile isJsSpace).reverse,
      isJsSpace c = true := by
    intro c hc
    rw [List.mem_reverse] at hc
    exact List.mem_takeWhile_imp hc
  have hdec1 : l = l.takeWhile isJsSpace ++ trimLeftJs l :=
    (List.takeWhile_append_dropWhile (p := isJsSpace) (l := l)).symm
  have hdec2 : trimLeftJs l =
      jsTrimL l ++ ((trimLeftJs l).reverse.takeWhile isJsSpace).reverse := by
    calc trimLeftJs l = (trimLeftJs l).reverse.reverse := (List.reverse_reverse _).symm
      _ = ((trimLeftJs l).reverse.takeWhile isJsSpace ++
            (trimLeftJs l).reverse.dropWhile isJsSpace).reverse := by
          rw [List.takeWhile_append_dropWhile]
      _ = ((trimLeftJs l).reverse.dropWhile isJsSpace).reverse ++
            ((trimLeftJs l).reverse.takeWhile isJsSpace).reverse := by
          rw [List.reverse_append]
      _ = jsTrimL l ++ ((trimLeftJs l).reverse.takeWhile isJsSpace).reverse := rfl
  conv_rhs => rw [normList, hdec1, cleanList_append, cleanList_of_ws hws1]
  rw [show normList (jsTrimL l) = jsTrimL (collapseWs (cleanList (jsTrimL l))) from rfl]
  rw [jsTrimL_collapse_ws_front hws1]
  conv_rhs => rw [hdec2, cleanList_append, cleanList_of_ws hws2]
  rw [jsTrimL_collapse_ws_suffix hws2]

theorem norm_jsTrimStr (s : String) : norm (jsTrimStr s) = norm s := by
  show (⟨normList (jsTrimL s.data)⟩ : String) = ⟨normList s.data⟩
  rw [normList_jsTrimL]

theorem canonicalHeaderName_idem (raw : String) :
    canonicalHeaderName (canonicalHeaderName raw) = canonicalHeaderName raw := by
  have hstep : ∀ s : String, canonicalHeaderName s =
      (let n := norm s
       if containsSub n "DATA APOSTA" then "DATA APOSTA"
       else if n = "LUCRO" then "LUCRO"
       else if n = "STAKE" then "STAKE"
       else if n = "CASA" ∨ containsSub n "BOOK" then "CASA"
       else if n = "ESPORTE" ∨ n = "ESPORTES" then "ESPORTE"
       else if containsSub n "DATA EVENTO" ∨ containsSub n "DATA JOGO" then "DATA EVENTO"
       else if n = "EVENTO" ∨ n = "PARTIDA" ∨ containsSub n "MATCH" then "EVENTO"
       else jsTrimStr s) := fun s => rfl
  by_cases h1 : containsSub (norm raw) "DATA APOSTA"
  · rw [show canonicalHeaderName raw = "DATA APOSTA" by
      rw [hstep]; simp only []; rw [if_pos h1]]
    decide
  · by_cases h2 : norm raw = "LUCRO"
    · rw [show canonicalHeaderName raw = "LUCRO" by
        rw [hstep]; simp only []; rw [if_neg h1, if_pos h2]]
      decide
    · by_cases h3 : norm raw = "STAKE"
      · rw [show canonicalHeaderName raw = "STAKE" by
          rw [hstep]; simp only []; rw [if_neg h1, if_neg h2, if_pos h3]]
        decide
      · by_cases h4 : norm raw = "CASA" ∨ containsSub (norm raw) "BOOK"
        · rw [show canonicalHeaderName raw = "CASA" by
            rw [hstep]; simp only []; rw [if_neg h1, if_neg h2, if_neg h3, if_pos h4]]
          decide
        · by_cases h5 : norm raw = "ESPORTE" ∨ norm raw = "ESPORTES"
          · rw [show canonicalHeaderName raw = "ESPORTE" by
              rw [hstep]; simp only []
              rw [if_neg h1, if_neg h2, if_neg h3, if_neg h4, if_pos h5]]
            decide
          · by_cases h6 : containsSub (norm raw) "DATA EVENTO" ∨
                containsSub (norm raw) "DATA JOGO"
            · rw [show canonicalHeaderName raw = "DATA EVENTO" by
                rw [hstep]; simp only []
                rw [if_neg h1, if_neg h2, if_neg h3, if_neg h4, if_neg h5, if_pos h6]]
              decide
            · by_cases h7 : norm raw = "EVENTO" ∨ norm raw = "PARTIDA" ∨
                  containsSub (norm raw) "MATCH"
              · rw [show canonicalHeaderName raw = "EVENTO" by
                  rw [hstep]; simp only []
                  rw [if_neg h1, if_neg h2, if_neg h3, if_neg h4, if_neg h5,
                    if_neg h6, if_pos h7]]
                decide
              · rw [show canonicalHeaderName raw = jsTrimStr raw by
                  rw [hstep]; simp only []
                  rw [if_neg h1, if_neg h2, if_neg h3, if_neg h4, if_neg h5,
                    if_neg h6, if_neg h7]]
                rw [hstep]
                simp only []
                rw [norm_jsTrimStr]
                rw [if_neg h1, if_neg h2, if_neg h3, if_neg h4, if_neg h5,
                  if_neg h6, if_neg h7, jsTrimStr_idem]

/-! ## C5 -/

/-- C5: when `extractRowsFromValues` is given a previously established
CanonicalHeader (the image of some raw header row under
`canonicalHeaderName`, which is exactly what an earlier tab of the same
sheet yields) and the grid contains a header row (some cell whose
normalized text contains `DATA APOSTA`), the returned header is exactly the
supplied CanonicalHeader — the tab's own header text is ignored entirely:
its position `i` is used only to locate where data rows start, and the data
rows are projected with the supplied header. -/
theorem extract_reuses_mainHeader (values : List (List String))
    (mainH rawHdr : List String)
    (hsrc : mainH = rawHdr.map canonicalHeaderName)
    (hfound : ∃ row ∈ values, isHeaderRow row = true) :
    (extractRowsFromValues values (some mainH)).1 = some mainH ∧
    ∃ i, values.findIdx? isHeaderRow = some i ∧
      (extractRowsFromValues values (some mainH)).2 =
        ((values.drop (i + 1)).filter isNonBlankRow).map (projectRow mainH) := by
  have hne : ¬ values = [] := by
    rintro rfl
    obtain ⟨x, hx, _⟩ := hfound
    simp at hx
  have hfix : ∀ c ∈ mainH, canonicalHeaderName c = c := by
    intro c hc
    rw [hsrc] at hc
    obtain ⟨r, _, rfl⟩ := List.mem_map.mp hc
    exact canonicalHeaderName_idem r
  have hmap : mainH.map canonicalHeaderName = mainH := by
    have h₁ := List.map_congr_left hfix
    simpa using h₁
  cases h : values.findIdx? isHeaderRow with
  | none =>
    exfalso
    rw [List.findIdx?_eq_none_iff] at h
    obtain ⟨row, hr, hp⟩ := hfound
    have := h row hr
    simp [hp] at this
  | some i =>
    unfold extractRowsFromValues
    rw [if_neg hne, h]
    simp only [Option.getD_some]
    rw [hmap]
    exact ⟨rfl, i, rfl, rfl⟩

/-- Witness for `extract_reuses_mainHeader` on a two-tab-style concrete grid:
the supplied CanonicalHeader is the canonicalized image of an earlier tab's
raw header `["Data Aposta ", "Lucro", "EXTRA"]`. -/
theorem extract_reuses_mainHeader_witness :
    (["DATA APOSTA", "LUCRO", "EXTRA"] =
      (["Data Aposta ", "Lucro", "EXTRA"] : List String).map canonicalHeaderName) ∧
    (∃ row ∈ [["x"], ["Data Aposta", "Lucro"], ["01/01/2025", "5"]],
      isHeaderRow row = true) ∧
    (extractRowsFromValues [["x"], ["Data Aposta", "Lucro"], ["01/01/2025", "5"]]
      (some ["DATA APOSTA", "LUCRO", "EXTRA"])).1 =
      some ["DATA APOSTA", "LUCRO", "EXTRA"] := by
  refine ⟨by decide, ⟨["Data Aposta", "Lucro"], by decide, by decide⟩, ?_⟩
  exact (extract_reuses_mainHeader _ _ ["Data Aposta ", "Lucro", "EXTRA"] (by decide)
    ⟨["Data Aposta", "Lucro"], by decide, by decide⟩).1

/-! ## C8 -/

/-- C8 counterexample: the `GET /api/sheets` handler's catch branch answers
500 with a body containing only an `error` field and no `detail` field
(index.js line 81), refuting "a JSON body containing both an error field and
a detail field" for every handler. -/
theorem c8_counterexample :
    (apiSheetsList (Except.error "boom")).1 = 500 ∧
    "error" ∈ (apiSheetsList (Except.error "boom")).2.fieldNames ∧
    "detail" ∉ (apiSheetsList (Except.error "boom")).2.fieldNames := by
  refine ⟨rfl, by decide, by decide⟩

/-- C8 (amended): every handler responds to an unexpected internal failure
with status 500 and a JSON body containing an `error` field; the
refresh-sheets, overview, and overview-all handlers additionally include a
`detail` field, while the sheets list/create/delete handlers return only
`error`. -/
theorem handlers_error_responses :
    (∀ e : String, (apiSheetsList (Except.error e)).1 = 500 ∧
      (apiSheetsList (Except.error e)).2.fieldNames = ["error"]) ∧
    (∀ e : String, (apiSheetsCreate "n" "g" (Except.error e)).1 = 500 ∧
      (apiSheetsCreate "n" "g" (Except.error e)).2.fieldNames = ["error"]) ∧
    (∀ e : String, (apiSheetsDelete (Except.error e) (Except.ok ())).1 = 500 ∧
      (apiSheetsDelete (Except.error e) (Except.ok ())).2.fieldNames = ["error"]) ∧
    (∀ (e : String) (s : SheetReg),
      (apiSheetsDelete (Except.ok (some s)) (Except.error e)).1 = 500 ∧
      (apiSheetsDelete (Except.ok (some s)) (Except.error e)).2.fieldNames = ["error"]) ∧
    (∀ e : String, apiRefreshSheets (Except.error e) =
      (500, ResBody.obj [("error", "Erro ao limpar cache"), ("detail", e)])) ∧
    (∀ (e operadorQ fromQ toQ : String) (fetch : Except String (List RowObj)),
      apiDashboardOverview "1" (Except.error e) fetch operadorQ fromQ toQ =
        (500, ResBody.obj [("error", "Erro ao montar overview"), ("detail", e)])) ∧
    (∀ (e operadorQ fromQ toQ : String) (s : SheetReg),
      apiDashboardOverview "1" (Except.ok (some s)) (Except.error e) operadorQ fromQ toQ =
        (500, ResBody.obj [("error", "Erro ao montar overview"), ("detail", e)])) ∧
    (∀ (e operadorQ fromQ toQ : String),
      apiDashboardOverviewAll (Except.error e) operadorQ fromQ toQ =
        (500, ResBody.obj [("error", "Erro ao montar overview geral"), ("detail", e)])) := by
  refine ⟨fun e => ⟨rfl, rfl⟩, fun e => ⟨?_, ?_⟩, fun e => ⟨rfl, rfl⟩,
    fun e s => ⟨rfl, rfl⟩, fun e => rfl, fun e oq fq tq fetch => ?_,
    fun e oq fq tq s => ?_, fun e oq fq tq => rfl⟩
  · simp [apiSheetsCreate]
  · simp [apiSheetsCreate, ResBody.fieldNames]
  · simp [apiDashboardOverview]
  · simp [apiDashboardOverview]


/-! ## Permutation lemmas for the grouping stages -/

section PermLemmas

variable {α K β : Type} [DecidableEq K]

theorem aggClass_perm (key : α → K) (init : α → β) (upd : β → α → β)
    (hcomm : ∀ b a a₂, upd (upd b a) a₂ = upd (upd b a₂) a)
    {l l₂ : List α} (hp : l.Perm l₂)
    (hinit : ∀ a ∈ l, ∀ a₂ ∈ l, key a = key a₂ → init a = init a₂)
    (k : K) : aggClass key init upd k l = aggClass key init upd k l₂ := by
  unfold aggClass
  have hf : (l.filter (fun a => key a = k)).Perm (l₂.filter (fun a => key a = k)) :=
    hp.filter _
  cases hcls : l.filter (fun a => key a = k) with
  | nil =>
    rw [hcls] at hf
    rw [hf.symm.eq_nil]
  | cons h₀ t₀ =>
    rw [hcls] at hf
    cases hcls₂ : l₂.filter (fun a => key a = k) with
    | nil =>
      rw [hcls₂] at hf
      exact absurd hf.eq_nil (by simp)
    | cons h₁ t₁ =>
      rw [hcls₂] at hf
      have hm₀ : h₀ ∈ l ∧ key h₀ = k := by
        have : h₀ ∈ l.filter (fun a => key a = k) := by rw [hcls]; simp
        have h' := List.mem_filter.mp this
        exact ⟨h'.1, by simpa using h'.2⟩
      have hm₁ : h₁ ∈ l ∧ key h₁ = k := by
        have : h₁ ∈ l₂.filter (fun a => key a = k) := by rw [hcls₂]; simp
        have h' := List.mem_filter.mp this
        exact ⟨hp.symm.subset h'.1, by simpa using h'.2⟩
      have hie : init h₀ = init h₁ :=
        hinit h₀ hm₀.1 h₁ hm₁.1 (by rw [hm₀.2, hm₁.2])
      show some (List.foldl upd (init h₀) (h₀ :: t₀)) =
        some (List.foldl upd (init h₁) (h₁ :: t₁))
      rw [hie]
      exact congrArg some (foldl_perm_comm upd hcomm hf _)

theorem jsGroup_perm (key : α → K) (init : α → β) (upd : β → α → β)
    (hcomm : ∀ b a a₂, upd (upd b a) a₂ = upd (upd b a₂) a)
    {l l₂ : List α} (hp : l.Perm l₂)
    (hinit : ∀ a ∈ l, ∀ a₂ ∈ l, key a = key a₂ → init a = init a₂) :
    (jsGroup key init upd l).Perm (jsGroup key init upd l₂) := by
  have hn := jsGroup_keys_nodup key init upd l
  have hn₂ := jsGroup_keys_nodup key init upd l₂
  rw [List.perm_ext_iff_of_nodup hn.of_map hn₂.of_map]
  rintro ⟨k, b⟩
  constructor
  · intro hm
    have hl := lookupKey_of_mem hn hm
    rw [lookupKey_jsGroup] at hl
    refine mem_of_lookupKey ?_
    rw [lookupKey_jsGroup, ← aggClass_perm key init upd hcomm hp hinit k]
    exact hl
  · intro hm
    have hl := lookupKey_of_mem hn₂ hm
    rw [lookupKey_jsGroup] at hl
    refine mem_of_lookupKey ?_
    rw [lookupKey_jsGroup, aggClass_perm key init upd hcomm hp hinit k]
    exact hl

end PermLemmas


theorem quadUpd_comm (b : String × JSNum × JSNum)
    (p p₂ : String × String × JSNum × JSNum) :
    quadUpd (quadUpd b p) p₂ = quadUpd (quadUpd b p₂) p := by
  unfold quadUpd
  simp only [jadd_eq_add]
  exact Prod.ext rfl (Prod.ext (add_right_comm _ _ _) (add_right_comm _ _ _))

theorem triUpd_comm (o : OperadorAcc) (p p₂ : String × JSNum × JSNum) :
    triUpd (triUpd o p) p₂ = triUpd (triUpd o p₂) p := by
  unfold triUpd
  simp only [jadd_eq_add, OperadorAcc.mk.injEq, true_and, eq_self_iff_true]
  exact ⟨add_right_comm _ _ _, add_right_comm _ _ _⟩

theorem grupos_proj_perm {data data₂ : List NormalizedRecord}
    (hp : data.Perm data₂) (hco : keyOperCoherent data) :
    ((groupRecords data).map grupoProj).Perm ((groupRecords data₂).map grupoProj) := by
  have hfac : ∀ l : List NormalizedRecord,
      (jsGroup grupoKey grupoInit grupoUpd l).map (Prod.map id grupoProj) =
        jsGroup quadKey quadInit quadUpd (l.map recProj) :=
    jsGroup_factor grupoKey grupoInit grupoUpd recProj quadKey quadInit quadUpd grupoProj
      (fun d => rfl) (fun d => rfl) (fun g d => rfl)
  have hperm : (jsGroup quadKey quadInit quadUpd (data.map recProj)).Perm
      (jsGroup quadKey quadInit quadUpd (data₂.map recProj)) := by
    refine jsGroup_perm quadKey quadInit quadUpd quadUpd_comm (hp.map recProj) ?_
    rintro p hm p₂ hm₂ hk
    obtain ⟨d, hd, rfl⟩ := List.mem_map.mp hm
    obtain ⟨d₂, hd₂, rfl⟩ := List.mem_map.mp hm₂
    have : d.operador = d₂.operador := hco d hd d₂ hd₂ hk
    unfold quadInit recProj
    simp [this]
  have e1 : ∀ l : List NormalizedRecord,
      (groupRecords l).map grupoProj =
        ((jsGroup grupoKey grupoInit grupoUpd l).map (Prod.map id grupoProj)).map
          Prod.snd := by
    intro l
    unfold groupRecords
    rw [List.map_map, List.map_map]
    rfl
  rw [e1, e1, hfac, hfac]
  exact hperm.map Prod.snd

theorem sortByDate_eq_of_perm {l l₂ : List DayStat}
    (hp : l.Perm l₂) (hn : (l.map DayStat.date).Nodup) :
    sortByDate l = sortByDate l₂ := by
  unfold sortByDate
  haveI htot : IsTotal DayStat (fun a b => a.date ≤ b.date) :=
    ⟨fun a b => le_total a.date b.date⟩
  haveI htra : IsTrans DayStat (fun a b => a.date ≤ b.date) :=
    ⟨fun a b c h₁ h₂ => le_trans h₁ h₂⟩
  have hs₁ := List.sorted_insertionSort (fun a b : DayStat => a.date ≤ b.date) l
  have hs₂ := List.sorted_insertionSort (fun a b : DayStat => a.date ≤ b.date) l₂
  have hperm : (l.insertionSort (fun a b => a.date ≤ b.date)).Perm
      (l₂.insertionSort (fun a b => a.date ≤ b.date)) :=
    ((List.perm_insertionSort _ l).trans hp).trans (List.perm_insertionSort _ l₂).symm
  have hn₁ : ((l.insertionSort (fun a b => a.date ≤ b.date)).map DayStat.date).Nodup :=
    (((List.perm_insertionSort _ l).map DayStat.date).nodup_iff).mpr hn
  have hn₂' : (l₂.map DayStat.date).Nodup := ((hp.map DayStat.date).nodup_iff).mp hn
  have hn₂ : ((l₂.insertionSort (fun a b => a.date ≤ b.date)).map DayStat.date).Nodup :=
    (((List.perm_insertionSort _ l₂).map DayStat.date).nodup_iff).mpr hn₂'
  have hstrict : ∀ {m : List DayStat}, m.Sorted (fun a b => a.date ≤ b.date) →
      (m.map DayStat.date).Nodup → m.Sorted (fun a b => a.date < b.date) := by
    intro m hs hnd
    have hne : m.Pairwise (fun a b => a.date ≠ b.date) := by
      rw [List.Nodup, List.pairwise_map] at hnd
      exact hnd
    have hand := List.Pairwise.and hs hne
    exact hand.imp (fun h => lt_of_le_of_ne h.1 h.2)
  haveI : IsAntisymm DayStat (fun a b => a.date < b.date) :=
    ⟨fun a b h₁ h₂ => absurd (lt_trans h₁ h₂) (lt_irrefl _)⟩
  exact List.eq_of_perm_of_sorted hperm (hstrict hs₁ hn₁) (hstrict hs₂ hn₂)

/-! ## C9 -/

/-- C9 (amended): permuting the record list before grouping into entries by
the composite key and computing the statistics leaves the `overview` block
and the (sorted) `lucroPorDia` series exactly equal and the `porOperador`,
`porCasa`, `porEsporte` breakdowns equal up to reordering of their entries,
provided (i) equal composite keys come from equal operadors (an evento or
operador containing the `|` separator can otherwise merge two operadors'
records under one key, making the first-record choice of the stored
operador order-dependent), (ii) every record's `lucro` is finite (an
infinite lucro can drive a day accumulator to `NaN`, which the falsy
re-init of `lucroPorDiaMap` then resets to `0` order-dependently), and
(iii) no record's date collides with an `Object.prototype` property name
(satisfied by the handlers' ISO dates). -/
theorem overviewStats_perm (data data₂ : List NormalizedRecord)
    (hp : data.Perm data₂) (hco : keyOperCoherent data)
    (hfin : ∀ d ∈ data, isFinNum d.lucro = true)
    (hpro : ∀ d ∈ data, d.dataAposta ∉ protoProps) :
    (buildStatsFromData data (groupRecords data)).overview =
      (buildStatsFromData data₂ (groupRecords data₂)).overview ∧
    (buildStatsFromData data (groupRecords data)).lucroPorDia =
      (buildStatsFromData data₂ (groupRecords data₂)).lucroPorDia ∧
    ((buildStatsFromData data (groupRecords data)).porOperador).Perm
      ((buildStatsFromData data₂ (groupRecords data₂)).porOperador) ∧
    ((buildStatsFromData data (groupRecords data)).porCasa).Perm
      ((buildStatsFromData data₂ (groupRecords data₂)).porCasa) ∧
    ((buildStatsFromData data (groupRecords data)).porEsporte).Perm
      ((buildStatsFromData data₂ (groupRecords data₂)).porEsporte) := by
  have hgp := grupos_proj_perm hp hco
  have hlen : (groupRecords data).length = (groupRecords data₂).length := by
    have := hgp.length_eq
    simpa using this
  have hstake : jsum (data.map (fun d => d.stake)) = jsum (data₂.map (fun d => d.stake)) :=
    jsum_perm (hp.map _)
  have hlucro : jsum (data.map (fun d => d.lucro)) = jsum (data₂.map (fun d => d.lucro)) :=
    jsum_perm (hp.map _)
  have hcount : ∀ (l : List Grupo) (p : String × JSNum × JSNum → Bool)
      (q : Grupo → Bool), (∀ g, q g = p (grupoProj g)) →
      (l.filter q).length = List.countP p (l.map grupoProj) := by
    intro l p q hqp
    rw [List.countP_map, ← List.countP_eq_length_filter]
    congr 1
    funext g
    exact hqp g
  have hgreens : ((groupRecords data).filter isGreen).length =
      ((groupRecords data₂).filter isGreen).length := by
    rw [hcount _ (fun p => jlt epsNum p.2.1) isGreen (fun g => rfl),
      hcount _ (fun p => jlt epsNum p.2.1) isGreen (fun g => rfl), hgp.countP_eq]
  have hreds : ((groupRecords data).filter isRed).length =
      ((groupRecords data₂).filter isRed).length := by
    rw [hcount _ (fun p => jlt p.2.1 negEpsNum) isRed (fun g => rfl),
      hcount _ (fun p => jlt p.2.1 negEpsNum) isRed (fun g => rfl), hgp.countP_eq]
  have hfin₂ : ∀ d ∈ data₂, isFinNum d.lucro = true :=
    fun d hd => hfin d (hp.symm.subset hd)
  have hpro₂ : ∀ d ∈ data₂, d.dataAposta ∉ protoProps :=
    fun d hd => hpro d (hp.symm.subset hd)
  have hdayfl : ∀ dd : List NormalizedRecord,
      (∀ d ∈ dd, isFinNum d.lucro = true) → (∀ d ∈ dd, d.dataAposta ∉ protoProps) →
      (dayGroup (dd.filter (fun d => d.dataAposta ≠ ""))).map
          (fun p => DayStat.mk p.1 p.2) =
        (jsGroup (fun d : NormalizedRecord => d.dataAposta) (fun _ => JSNum.fin 0)
          (fun b d => jadd b d.lucro) (dd.filter (fun d => d.dataAposta ≠ ""))).map
          (fun p => DayStat.mk p.1 (JSVal.vnum p.2)) := by
    intro dd h1 h2
    rw [dayGroup_eq (fun d hd =>
      ⟨h1 d (List.mem_of_mem_filter hd), h2 d (List.mem_of_mem_filter hd)⟩)]
    rw [List.map_map]
    rfl
  have hdia :
      sortByDate ((dayGroup (data.filter (fun d => d.dataAposta ≠ ""))).map
        (fun p => DayStat.mk p.1 p.2)) =
      sortByDate ((dayGroup (data₂.filter (fun d => d.dataAposta ≠ ""))).map
        (fun p => DayStat.mk p.1 p.2)) := by
    rw [hdayfl data hfin hpro, hdayfl data₂ hfin₂ hpro₂]
    apply sortByDate_eq_of_perm
    · refine List.Perm.map _ (jsGroup_perm _ _ _ ?_ (hp.filter _) (fun a _ a₂ _ _ => rfl))
      intro b a a₂
      rw [jadd_eq_add, jadd_eq_add, jadd_eq_add, jadd_eq_add]
      exact add_right_comm _ _ _
    · rw [List.map_map]
      exact jsGroup_keys_nodup _ _ _ _
  have hfiltproj : ∀ l : List Grupo,
      ((l.filter (fun g => g.operador ∉ protoProps)).map grupoProj) =
        (l.map grupoProj).filter (fun p => p.1 ∉ protoProps) := by
    intro l
    induction l with
    | nil => rfl
    | cons g t ih =>
      rw [List.map_cons]
      by_cases hg : g.operador ∈ protoProps
      · rw [List.filter_cons_of_neg (by simp [hg]),
          List.filter_cons_of_neg (by simp [grupoProj, hg]), ih]
      · rw [List.filter_cons_of_pos (by simp [hg]), List.map_cons,
          List.filter_cons_of_pos (by simp [grupoProj, hg]), ih]
  have hop : ((jsObjGroup (fun g : Grupo => g.operador)
        (fun g => OperadorAcc.mk g.operador 0 (JSNum.fin 0) (JSNum.fin 0))
        (fun o g => ⟨o.operador, o.entradas + 1, jadd o.lucro g.lucroTotal,
          jadd o.stake_total g.stakeTotal⟩) (groupRecords data)).map
      (fun p => finOperador p.2)).Perm
      ((jsObjGroup (fun g : Grupo => g.operador)
        (fun g => OperadorAcc.mk g.operador 0 (JSNum.fin 0) (JSNum.fin 0))
        (fun o g => ⟨o.operador, o.entradas + 1, jadd o.lucro g.lucroTotal,
          jadd o.stake_total g.stakeTotal⟩) (groupRecords data₂)).map
      (fun p => finOperador p.2)) := by
    rw [jsObjGroup_eq, jsObjGroup_eq]
    have hfacO : ∀ l : List Grupo,
        (jsGroup (fun g : Grupo => g.operador)
          (fun g => OperadorAcc.mk g.operador 0 (JSNum.fin 0) (JSNum.fin 0))
          (fun o g => ⟨o.operador, o.entradas + 1, jadd o.lucro g.lucroTotal,
            jadd o.stake_total g.stakeTotal⟩) l).map
          (Prod.map id (id : OperadorAcc → OperadorAcc)) =
          jsGroup triKey triInit triUpd (l.map grupoProj) :=
      jsGroup_factor _ _ _ grupoProj triKey triInit triUpd id
        (fun g => rfl) (fun g => rfl) (fun o g => rfl)
    have hidmap : ∀ L : List (String × OperadorAcc),
        L.map (Prod.map id (id : OperadorAcc → OperadorAcc)) = L := by
      intro L
      simp [Prod.map_id]
    have hgp₂ : (((groupRecords data).filter
          (fun g => g.operador ∉ protoProps)).map grupoProj).Perm
        (((groupRecords data₂).filter
          (fun g => g.operador ∉ protoProps)).map grupoProj) := by
      rw [hfiltproj, hfiltproj]
      exact hgp.filter _
    have hpermO := jsGroup_perm triKey triInit triUpd triUpd_comm hgp₂
      (fun p _ p₂ _ hk => by unfold triInit; rw [show p.1 = p₂.1 from hk])
    have he₁ := hfacO ((groupRecords data).filter (fun g => g.operador ∉ protoProps))
    have he₂ := hfacO ((groupRecords data₂).filter (fun g => g.operador ∉ protoProps))
    rw [hidmap] at he₁ he₂
    rw [he₁, he₂]
    exact hpermO.map _
  have hcasa : ((jsObjGroup (fun d : NormalizedRecord => d.casa)
        (fun d => CasaAcc.mk d.casa 0 (JSNum.fin 0) (JSNum.fin 0))
        (fun c d => ⟨c.casa, c.entradas + 1, jadd c.lucro d.lucro,
          jadd c.stake_total d.stake⟩)
        (data.filter (fun d => d.casa ≠ ""))).map (fun p => finCasa p.2)).Perm
      ((jsObjGroup (fun d : NormalizedRecord => d.casa)
        (fun d => CasaAcc.mk d.casa 0 (JSNum.fin 0) (JSNum.fin 0))
        (fun c d => ⟨c.casa, c.entradas + 1, jadd c.lucro d.lucro,
          jadd c.stake_total d.stake⟩)
        (data₂.filter (fun d => d.casa ≠ ""))).map (fun p => finCasa p.2)) := by
    rw [jsObjGroup_eq, jsObjGroup_eq]
    refine List.Perm.map _ (jsGroup_perm _ _ _ ?_ ((hp.filter _).filter _) ?_)
    · intro b a a₂
      simp only [jadd_eq_add, CasaAcc.mk.injEq, true_and, eq_self_iff_true]
      exact ⟨add_right_comm _ _ _, add_right_comm _ _ _⟩
    · intro a _ a₂ _ hk
      simp only at hk
      rw [show a.casa = a₂.casa from hk]
  have hesp : ((jsObjGroup (fun d : NormalizedRecord => d.esporte)
        (fun d => EsporteAcc.mk d.esporte 0 (JSNum.fin 0) (JSNum.fin 0))
        (fun e d => ⟨e.esporte, e.entradas + 1, jadd e.lucro d.lucro,
          jadd e.stake_total d.stake⟩)
        (data.filter (fun d => d.esporte ≠ ""))).map (fun p => finEsporte p.2)).Perm
      ((jsObjGroup (fun d : NormalizedRecord => d.esporte)
        (fun d => EsporteAcc.mk d.esporte 0 (JSNum.fin 0) (JSNum.fin 0))
        (fun e d => ⟨e.esporte, e.entradas + 1, jadd e.lucro d.lucro,
          jadd e.stake_total d.stake⟩)
        (data₂.filter (fun d => d.esporte ≠ ""))).map (fun p => finEsporte p.2)) := by
    rw [jsObjGroup_eq, jsObjGroup_eq]
    refine List.Perm.map _ (jsGroup_perm _ _ _ ?_ ((hp.filter _).filter _) ?_)
    · intro b a a₂
      simp only [jadd_eq_add, EsporteAcc.mk.injEq, true_and, eq_self_iff_true]
      exact ⟨add_right_comm _ _ _, add_right_comm _ _ _⟩
    · intro a _ a₂ _ hk
      simp only at hk
      rw [show a.esporte = a₂.esporte from hk]
  simp only [buildStatsFromData]
  refine ⟨?_, hdia, hop, hcasa, hesp⟩
  rw [hstake, hlucro, hlen, hgreens, hreds]

/-- C9 counterexample: the statistics result is not literally
order-independent.  Swapping two records reverses the `porCasa` array, so
the results differ as values; when an evento contains the key separator
`|`, two records of different operadors share one entry, whose stored
operador is whichever record came first — the `porOperador` breakdowns then
differ even as multisets; and with lucros `Infinity`, `-Infinity`, `5` on
one date, the falsy re-init of the day accumulator resets the `NaN` sum to
`0` in one order but not another, so even the `lucroPorDia` value differs
(finite in one order, `NaN` in the other). -/
theorem c9_counterexample :
    ((buildStatsFromData
        [⟨"2025-01-01", "OP", "A", "F", "ev", "", JSNum.fin 10, JSNum.fin 5⟩,
         ⟨"2025-01-02", "OP", "B", "G", "ev2", "", JSNum.fin 20, JSNum.fin (-3)⟩]
        (groupRecords
          [⟨"2025-01-01", "OP", "A", "F", "ev", "", JSNum.fin 10, JSNum.fin 5⟩,
           ⟨"2025-01-02", "OP", "B", "G", "ev2", "", JSNum.fin 20, JSNum.fin (-3)⟩])).porCasa.map
      (fun c => c.casa) = ["A", "B"]) ∧
    ((buildStatsFromData
        [⟨"2025-01-02", "OP", "B", "G", "ev2", "", JSNum.fin 20, JSNum.fin (-3)⟩,
         ⟨"2025-01-01", "OP", "A", "F", "ev", "", JSNum.fin 10, JSNum.fin 5⟩]
        (groupRecords
          [⟨"2025-01-02", "OP", "B", "G", "ev2", "", JSNum.fin 20, JSNum.fin (-3)⟩,
           ⟨"2025-01-01", "OP", "A", "F", "ev", "", JSNum.fin 10, JSNum.fin 5⟩])).porCasa.map
      (fun c => c.casa) = ["B", "A"]) ∧
    buildStatsFromData
        [⟨"2025-01-01", "OP", "A", "F", "ev", "", JSNum.fin 10, JSNum.fin 5⟩,
         ⟨"2025-01-02", "OP", "B", "G", "ev2", "", JSNum.fin 20, JSNum.fin (-3)⟩]
        (groupRecords
          [⟨"2025-01-01", "OP", "A", "F", "ev", "", JSNum.fin 10, JSNum.fin 5⟩,
           ⟨"2025-01-02", "OP", "B", "G", "ev2", "", JSNum.fin 20, JSNum.fin (-3)⟩]) ≠
      buildStatsFromData
        [⟨"2025-01-02", "OP", "B", "G", "ev2", "", JSNum.fin 20, JSNum.fin (-3)⟩,
         ⟨"2025-01-01", "OP", "A", "F", "ev", "", JSNum.fin 10, JSNum.fin 5⟩]
        (groupRecords
          [⟨"2025-01-02", "OP", "B", "G", "ev2", "", JSNum.fin 20, JSNum.fin (-3)⟩,
           ⟨"2025-01-01", "OP", "A", "F", "ev", "", JSNum.fin 10, JSNum.fin 5⟩]) ∧
    ¬ ((buildStatsFromData
        [⟨"2025-01-01", "OPA", "", "", "E|opb", "", JSNum.fin 1, JSNum.fin 1⟩,
         ⟨"2025-01-01", "opb|OPA", "", "", "e", "", JSNum.fin 1, JSNum.fin 1⟩]
        (groupRecords
          [⟨"2025-01-01", "OPA", "", "", "E|opb", "", JSNum.fin 1, JSNum.fin 1⟩,
           ⟨"2025-01-01", "opb|OPA", "", "", "e", "", JSNum.fin 1, JSNum.fin 1⟩])).porOperador.map
      (fun o => o.operador)).Perm
      ((buildStatsFromData
        [⟨"2025-01-01", "opb|OPA", "", "", "e", "", JSNum.fin 1, JSNum.fin 1⟩,
         ⟨"2025-01-01", "OPA", "", "", "E|opb", "", JSNum.fin 1, JSNum.fin 1⟩]
        (groupRecords
          [⟨"2025-01-01", "opb|OPA", "", "", "e", "", JSNum.fin 1, JSNum.fin 1⟩,
           ⟨"2025-01-01", "OPA", "", "", "E|opb", "", JSNum.fin 1, JSNum.fin 1⟩])).porOperador.map
      (fun o => o.operador)) ∧
    ((buildStatsFromData
        [⟨"2025-01-01", "OP", "", "", "", "", JSNum.fin 0, JSNum.inf⟩,
         ⟨"2025-01-01", "OP", "", "", "", "", JSNum.fin 0, JSNum.ninf⟩,
         ⟨"2025-01-01", "OP", "", "", "", "", JSNum.fin 0, JSNum.fin 5⟩]
        []).lucroPorDia.map
      (fun p => decide (p.lucro = JSVal.vnum JSNum.nan)) = [false]) ∧
    ((buildStatsFromData
        [⟨"2025-01-01", "OP", "", "", "", "", JSNum.fin 0, JSNum.inf⟩,
         ⟨"2025-01-01", "OP", "", "", "", "", JSNum.fin 0, JSNum.fin 5⟩,
         ⟨"2025-01-01", "OP", "", "", "", "", JSNum.fin 0, JSNum.ninf⟩]
        []).lucroPorDia.map
      (fun p => decide (p.lucro = JSVal.vnum JSNum.nan)) = [true]) := by
  have h1 :
      (buildStatsFromData
        [⟨"2025-01-01", "OP", "A", "F", "ev", "", JSNum.fin 10, JSNum.fin 5⟩,
         ⟨"2025-01-02", "OP", "B", "G", "ev2", "", JSNum.fin 20, JSNum.fin (-3)⟩]
        (groupRecords
          [⟨"2025-01-01", "OP", "A", "F", "ev", "", JSNum.fin 10, JSNum.fin 5⟩,
           ⟨"2025-01-02", "OP", "B", "G", "ev2", "", JSNum.fin 20, JSNum.fin (-3)⟩])).porCasa.map
      (fun c => c.casa) = ["A", "B"] := by decide
  have h2 :
      (buildStatsFromData
        [⟨"2025-01-02", "OP", "B", "G", "ev2", "", JSNum.fin 20, JSNum.fin (-3)⟩,
         ⟨"2025-01-01", "OP", "A", "F", "ev", "", JSNum.fin 10, JSNum.fin 5⟩]
        (groupRecords
          [⟨"2025-01-02", "OP", "B", "G", "ev2", "", JSNum.fin 20, JSNum.fin (-3)⟩,
           ⟨"2025-01-01", "OP", "A", "F", "ev", "", JSNum.fin 10, JSNum.fin 5⟩])).porCasa.map
      (fun c => c.casa) = ["B", "A"] := by decide
  refine ⟨h1, h2, ?_, ?_, by decide, by decide⟩
  · intro heq
    have h := congrArg (fun s => s.porCasa.map (fun c => c.casa)) heq
    simp only at h
    rw [h1, h2] at h
    exact absurd h (by decide)
  · have h4 :
        (buildStatsFromData
          [⟨"2025-01-01", "OPA", "", "", "E|opb", "", JSNum.fin 1, JSNum.fin 1⟩,
           ⟨"2025-01-01", "opb|OPA", "", "", "e", "", JSNum.fin 1, JSNum.fin 1⟩]
          (groupRecords
            [⟨"2025-01-01", "OPA", "", "", "E|opb", "", JSNum.fin 1, JSNum.fin 1⟩,
             ⟨"2025-01-01", "opb|OPA", "", "", "e", "", JSNum.fin 1, JSNum.fin 1⟩])).porOperador.map
        (fun o => o.operador) = ["OPA"] := by decide
    have h5 :
        (buildStatsFromData
          [⟨"2025-01-01", "opb|OPA", "", "", "e", "", JSNum.fin 1, JSNum.fin 1⟩,
           ⟨"2025-01-01", "OPA", "", "", "E|opb", "", JSNum.fin 1, JSNum.fin 1⟩]
          (groupRecords
            [⟨"2025-01-01", "opb|OPA", "", "", "e", "", JSNum.fin 1, JSNum.fin 1⟩,
             ⟨"2025-01-01", "OPA", "", "", "E|opb", "", JSNum.fin 1, JSNum.fin 1⟩])).porOperador.map
        (fun o => o.operador) = ["opb|OPA"] := by decide
    rw [h4, h5]
    decide

/-- Witness for `overviewStats_perm` on a concrete two-record swap with
finite lucros and ISO dates. -/
theorem overviewStats_perm_witness :
    ([⟨"2025-01-01", "OP", "A", "F", "ev", "", JSNum.fin 10, JSNum.fin 5⟩,
      ⟨"2025-01-02", "OP", "B", "G", "ev2", "", JSNum.fin 20, JSNum.fin (-3)⟩] :
        List NormalizedRecord).Perm
      [⟨"2025-01-02", "OP", "B", "G", "ev2", "", JSNum.fin 20, JSNum.fin (-3)⟩,
       ⟨"2025-01-01", "OP", "A", "F", "ev", "", JSNum.fin 10, JSNum.fin 5⟩] ∧
    keyOperCoherent
      [⟨"2025-01-01", "OP", "A", "F", "ev", "", JSNum.fin 10, JSNum.fin 5⟩,
       ⟨"2025-01-02", "OP", "B", "G", "ev2", "", JSNum.fin 20, JSNum.fin (-3)⟩] ∧
    (∀ d ∈ ([⟨"2025-01-01", "OP", "A", "F", "ev", "", JSNum.fin 10, JSNum.fin 5⟩,
       ⟨"2025-01-02", "OP", "B", "G", "ev2", "", JSNum.fin 20, JSNum.fin (-3)⟩] :
        List NormalizedRecord), isFinNum d.lucro = true) ∧
    (∀ d ∈ ([⟨"2025-01-01", "OP", "A", "F", "ev", "", JSNum.fin 10, JSNum.fin 5⟩,
       ⟨"2025-01-02", "OP", "B", "G", "ev2", "", JSNum.fin 20, JSNum.fin (-3)⟩] :
        List NormalizedRecord), d.dataAposta ∉ protoProps) ∧
    (buildStatsFromData
        [⟨"2025-01-01", "OP", "A", "F", "ev", "", JSNum.fin 10, JSNum.fin 5⟩,
         ⟨"2025-01-02", "OP", "B", "G", "ev2", "", JSNum.fin 20, JSNum.fin (-3)⟩]
        (groupRecords
          [⟨"2025-01-01", "OP", "A", "F", "ev", "", JSNum.fin 10, JSNum.fin 5⟩,
           ⟨"2025-01-02", "OP", "B", "G", "ev2", "", JSNum.fin 20, JSNum.fin (-3)⟩])).overview =
      (buildStatsFromData
        [⟨"2025-01-02", "OP", "B", "G", "ev2", "", JSNum.fin 20, JSNum.fin (-3)⟩,
         ⟨"2025-01-01", "OP", "A", "F", "ev", "", JSNum.fin 10, JSNum.fin 5⟩]
        (groupRecords
          [⟨"2025-01-02", "OP", "B", "G", "ev2", "", JSNum.fin 20, JSNum.fin (-3)⟩,
           ⟨"2025-01-01", "OP", "A", "F", "ev", "", JSNum.fin 10, JSNum.fin 5⟩])).overview := by
  refine ⟨by decide, by unfold keyOperCoherent; decide, by decide, by decide, ?_⟩
  exact (overviewStats_perm _ _ (by decide) (by unfold keyOperCoherent; decide)
    (by decide) (by decide)).1
